import Mathlib

/-!
Shallow embedding of the ldapenforcer reconciliation core.

Go maps are modelled as association lists (`List (String × β)`, lookup =
first match); Go map iteration is modelled as iteration in list order
(Go's map range order is unspecified, so every theorem below either does
not depend on the iteration order or is stated about the determinized
model).  Go's unbounded recursion through a mutable visited set is
modelled with an explicit fuel parameter that decreases once per
recursion level; the default fuel is large enough that exhaustion is
unreachable (proved where a claim needs it).
-/

namespace LdapEnforcer

/-- `internal/model/user.go`: Person. The `username` field is set from the
map key by config merging / SyncPerson. -/
structure Person where
  cn : String := ""
  givenName : String := ""
  sn : String := ""
  mail : String := ""
  posix : List Int := []
  username : String := ""
deriving Repr, DecidableEq

/-- `Person.IsPosix`: true iff the posix list has exactly two entries. -/
def Person.isPosix (p : Person) : Bool :=
  p.posix.length == 2

/-- `internal/model/svcacct.go` (src/unnamed/part_020): SvcAcct. -/
structure SvcAcct where
  cn : String := ""
  description : String := ""
  mail : String := ""
  posix : List Int := []
  username : String := ""
deriving Repr, DecidableEq

/-- `SvcAcct.IsPosix`. -/
def SvcAcct.isPosix (s : SvcAcct) : Bool :=
  s.posix.length == 2

/-- `internal/model/group.go`: Group. -/
structure Group where
  description : String := ""
  posixGidNumber : Int := 0
  people : List String := []
  svcaccts : List String := []
  groups : List String := []
deriving Repr, DecidableEq

/-- `Group.IsPosix`: positive POSIX gid. -/
def Group.isPosix (g : Group) : Bool :=
  0 < g.posixGidNumber

/-- The `[ldapenforcer]` section of the configuration
(`internal/config/config.go`), restricted to the fields the reconciler
reads.  The three entity maps are association lists. -/
structure LDAPEnforcerConfig where
  uri : String := ""
  bindDN : String := ""
  password : String := ""
  passwordFile : String := ""
  passwordCommand : String := ""
  enforcedPeopleOU : String := ""
  enforcedSvcAcctOU : String := ""
  enforcedGroupOU : String := ""
  person : List (String × Person) := []
  svcacct : List (String × SvcAcct) := []
  group : List (String × Group) := []
deriving Repr, DecidableEq

/-! ## LDAP filter escaping

Modelled from the spec: the DN builders in `internal/ldap/client.go` call
`ldap.EscapeFilter` from the go-ldap dependency, whose source is not part
of this repository.  It is modelled here from its documented behavior:
each LDAP filter metacharacter `*`, `(`, `)`, `\` and NUL is replaced by a
backslash followed by the character's two lowercase hex digits. -/

/-- Whether `EscapeFilter` escapes this character. -/
def mustEscape (c : Char) : Bool :=
  c == '*' || c == '(' || c == ')' || c == '\\' || c.toNat == 0

/-- Lowercase hex digit for a value below 16. -/
def hexDigit (n : Nat) : Char :=
  if n < 10 then Char.ofNat ('0'.toNat + n) else Char.ofNat ('a'.toNat + (n - 10))

/-- One character of `EscapeFilter` output. -/
def escapeChar (c : Char) : List Char :=
  if mustEscape c then ['\\', hexDigit (c.toNat / 16 % 16), hexDigit (c.toNat % 16)]
  else [c]

/-- Modelled from the spec: go-ldap `EscapeFilter` (see above). -/
def EscapeFilter (s : String) : String :=
  String.mk (s.data.flatMap escapeChar)

/-! ## DN construction -/

/-- `BaseClient.PersonToDN` (src/unnamed/part_018):
`uid=<escaped uid>,<enforcedPeopleOU>`. -/
def PersonToDN (peopleOU uid : String) : String :=
  "uid=" ++ EscapeFilter uid ++ "," ++ peopleOU

/-- `BaseClient.SvcAcctToDN`. -/
def SvcAcctToDN (svcAcctOU uid : String) : String :=
  "uid=" ++ EscapeFilter uid ++ "," ++ svcAcctOU

/-- `BaseClient.GroupToDN`: `cn=<escaped name>,<enforcedGroupOU>`. -/
def GroupToDN (groupOU groupname : String) : String :=
  "cn=" ++ EscapeFilter groupname ++ "," ++ groupOU

/-- `createPersonDN` (src/unnamed/part_021): the membership resolver's DN
builder, with no escaping. -/
def createPersonDN (uid enforcedPeopleOU : String) : String :=
  "uid=" ++ uid ++ "," ++ enforcedPeopleOU

/-- `createSvcAcctDN` (src/unnamed/part_021). -/
def createSvcAcctDN (uid enforcedSvcAcctOU : String) : String :=
  "uid=" ++ uid ++ "," ++ enforcedSvcAcctOU

/-! ## Membership resolution (`internal/model`, src/unnamed/part_021) -/

/-- `Member`: a resolved member of a group. -/
structure Member where
  dn : String
  mtype : String
  uid : String
  isPosix : Bool
deriving Repr, DecidableEq

/-- The two direct-member loops shared by `GetGroupMembers` and
`getNestedGroupMembers`: direct people first, then direct service
accounts; unknown usernames are skipped. -/
def directMembers (people : List (String × Person)) (svcaccts : List (String × SvcAcct))
    (enforcedPeopleOU enforcedSvcAcctOU : String) (g : Group) : List Member :=
  (g.people.filterMap fun uid =>
    (people.lookup uid).map fun p =>
      { dn := createPersonDN uid enforcedPeopleOU, mtype := "person", uid := uid,
        isPosix := p.isPosix }) ++
  (g.svcaccts.filterMap fun uid =>
    (svcaccts.lookup uid).map fun s =>
      { dn := createSvcAcctDN uid enforcedSvcAcctOU, mtype := "svcacct", uid := uid,
        isPosix := s.isPosix })

/-- The `for _, nestedGroupName := range group.Groups` loop of both
resolver functions: skip already-processed names, otherwise resolve the
nested group (threading the processed set) and append its members.
`resolve` is the recursive call; `none` is fuel exhaustion. -/
def nestedLoop (resolve : String → List String → Option (List Member × List String)) :
    List String → List String → Option (List Member × List String)
  | [], processed => some ([], processed)
  | n :: rest, processed =>
    if processed.contains n then nestedLoop resolve rest processed
    else
      match resolve n processed with
      | none => none
      | some (ms, p1) =>
        match nestedLoop resolve rest p1 with
        | none => none
        | some (ms2, p2) => some (ms ++ ms2, p2)

/-- `getNestedGroupMembers` (src/unnamed/part_021): look the group up
(unknown groups contribute nothing), mark it processed, emit its direct
members, then recurse through its nested groups. -/
def getNestedGroupMembersFuel (groups : List (String × Group)) (people : List (String × Person))
    (svcaccts : List (String × SvcAcct)) (enforcedPeopleOU enforcedSvcAcctOU : String) :
    Nat → String → List String → Option (List Member × List String)
  | 0, _, _ => none
  | fuel + 1, groupname, processed =>
    match groups.lookup groupname with
    | none => some ([], processed)
    | some g =>
      match nestedLoop
          (fun n p => getNestedGroupMembersFuel groups people svcaccts
            enforcedPeopleOU enforcedSvcAcctOU fuel n p)
          g.groups (groupname :: processed) with
      | none => none
      | some (ms, p) =>
        some (directMembers people svcaccts enforcedPeopleOU enforcedSvcAcctOU g ++ ms, p)

/-- `GetGroupMembers` (src/unnamed/part_021): resolve a group to its full
flattened member list.  `none` models only fuel exhaustion, which
`GetGroupMembers_isSome` shows is unreachable; the Go function's error
result is always nil. -/
def GetGroupMembers (groups : List (String × Group)) (people : List (String × Person))
    (svcaccts : List (String × SvcAcct))
    (enforcedPeopleOU enforcedSvcAcctOU enforcedGroupOU : String)
    (groupname : String) : Option (List Member) :=
  match groups.lookup groupname with
  | none => some []
  | some g =>
    match nestedLoop
        (fun n p => getNestedGroupMembersFuel groups people svcaccts
          enforcedPeopleOU enforcedSvcAcctOU groups.length n p)
        g.groups [groupname] with
    | none => none
    | some (ms, _) =>
      some (directMembers people svcaccts enforcedPeopleOU enforcedSvcAcctOU g ++ ms)

/-- Number of group-map entries whose key has not yet been processed:
the measure showing the membership recursion's fuel suffices. -/
def unprocessedCount (groups : List (String × Group)) (processed : List String) : Nat :=
  (groups.filter (fun kv => !(processed.contains kv.1))).length

/-- `GetGroupMembers` as its callers consume it (the Go callers receive
`(members, nil)`). -/
def getGroupMembersRun (cfg : LDAPEnforcerConfig) (groupname : String) : List Member :=
  (GetGroupMembers cfg.group cfg.person cfg.svcacct
    cfg.enforcedPeopleOU cfg.enforcedSvcAcctOU cfg.enforcedGroupOU groupname).getD []

/-! ## Group dependency collection (`BaseClient.getGroupDependencies`,
src/unnamed/part_018) -/

/-- The nested-group loop of `getGroupDependencies`: every nested name is
recorded as a dependency; unprocessed ones are recursed into, threading
the shared processed set. -/
def depsLoop (resolve : String → List String → List String × List String × List String) :
    List String → List String → List String × List String × List String
  | [], processed => ([], [], processed)
  | n :: rest, processed =>
    if processed.contains n then
      let (d, u, p) := depsLoop resolve rest processed
      (n :: d, u, p)
    else
      let (d1, u1, p1) := resolve n processed
      let (d2, u2, p2) := depsLoop resolve rest p1
      (n :: (d1 ++ d2), u1 ++ u2, p2)

/-- `getGroupDependencies`: returns (dependencies, unresolvable member
uids, updated processed set).  The group is marked processed on entry,
before the lookup. -/
def getGroupDependenciesFuel (cfg : LDAPEnforcerConfig) :
    Nat → String → List String → List String × List String × List String
  | 0, _, processed => ([], [], processed)
  | fuel + 1, groupname, processed =>
    let processed1 := if processed.contains groupname then processed else groupname :: processed
    match cfg.group.lookup groupname with
    | none => ([], [], processed1)
    | some g =>
      let unresolvable :=
        g.people.filter (fun uid => (cfg.person.lookup uid).isNone) ++
        g.svcaccts.filter (fun uid => (cfg.svcacct.lookup uid).isNone)
      let (d, u, p) :=
        depsLoop (fun n pr => getGroupDependenciesFuel cfg fuel n pr) g.groups processed1
      (d, unresolvable ++ u, p)

/-- The dependency-collection part of the `for groupname, group := range
Group` loop in `SyncAll`: one shared processed set threads through all
top-level calls, and only nonempty dependency lists are recorded. -/
def collectDepsAux (cfg : LDAPEnforcerConfig) :
    List (String × Group) → List String → List (String × List String)
  | [], _ => []
  | (groupname, _) :: rest, processed =>
    let (deps, _, processed') :=
      getGroupDependenciesFuel cfg (cfg.group.length + 1) groupname processed
    let tail := collectDepsAux cfg rest processed'
    if deps.length == 0 then tail else (groupname, deps) :: tail

/-- `groupDeps` as computed by `SyncAll`. -/
def collectDeps (cfg : LDAPEnforcerConfig) : List (String × List String) :=
  collectDepsAux cfg cfg.group []

/-! ## Topological sort (`BaseClient.topologicalSortGroups`,
src/unnamed/part_018 / internal/ldap/operations.go) -/

/-- Deduplication keeping first occurrences (determinizes Go's set-valued
`allGroups` map into a list). -/
def dedupFirstAux : List String → List String → List String
  | [], _ => []
  | x :: xs, seen =>
    if seen.contains x then dedupFirstAux xs seen else x :: dedupFirstAux xs (x :: seen)

/-- Deduplicate a list of group names, keeping first occurrences. -/
def dedupFirst (l : List String) : List String :=
  dedupFirstAux l []

/-- DFS state: (visited, temp, order). -/
abbrev TopoState := List String × List String × List String

/-- The `for node := range graph` iteration: visit each node in turn.
`visit1` is the `visit` closure. -/
def visitList (visit1 : String → TopoState → TopoState) :
    List String → TopoState → TopoState
  | [], st => st
  | n :: rest, st => visitList visit1 rest (visit1 n st)

/-- The `visit` closure of `topologicalSortGroups`: skip visited nodes,
stop (cycle) on temp-marked nodes, otherwise temp-mark, visit all
dependencies, then mark visited and append the node to the order. -/
def visitNodeFuel (adj : String → List String) :
    Nat → String → TopoState → TopoState
  | 0, _, st => st
  | fuel + 1, node, (visited, temp, order) =>
    if visited.contains node then (visited, temp, order)
    else if temp.contains node then (visited, temp, order)
    else
      match visitList (fun n st => visitNodeFuel adj fuel n st) (adj node)
          (visited, node :: temp, order) with
      | (v2, t2, o2) => (node :: v2, t2.erase node, o2 ++ [node])

/-- `topologicalSortGroups`: all groups are collected (config keys, dep
map keys, dep targets), the adjacency list maps each group to its
dependency list, a DFS appends each node after its dependencies, and
the resulting order is reversed before being returned. -/
def topologicalSortGroups (configGroupNames : List String)
    (deps : List (String × List String)) : List String :=
  let allGroups :=
    dedupFirst (configGroupNames ++ deps.map (fun kv => kv.1) ++
      (deps.map (fun kv => kv.2)).flatten)
  let adj := fun node => ((deps.lookup node).getD [])
  match visitList (fun n st => visitNodeFuel adj (allGroups.length + 1) n st)
      allGroups ([], [], []) with
  | (_, _, order) => order.reverse

/-! ## The mock directory client (`src/unnamed/part_016`)

`MockClient.Existing` is a map DN → bool; it is modelled as the list of
DNs currently mapped to true (no duplicates as long as the initial state
has none).  Operations are recorded exactly as the mock records them. -/

/-- `MockOperation`. -/
structure MockOperation where
  opType : String
  dn : String
  entityID : String
  etype : String
deriving Repr, DecidableEq

/-- `getEntityTypeAndID` (src/unnamed/part_016): parse the first RDN of a
DN; `uid=` means person, `cn=` means group, anything else is unknown. -/
def getEntityTypeAndID (dn : String) : String × String :=
  if dn.data.isEmpty then ("", "")
  else
    let firstPart := dn.data.takeWhile (fun c => c != ',')
    if decide (4 < firstPart.length) && firstPart.take 4 == ['u', 'i', 'd', '='] then
      ("person", String.mk (firstPart.drop 4))
    else if decide (3 < firstPart.length) && firstPart.take 3 == ['c', 'n', '='] then
      ("group", String.mk (firstPart.drop 3))
    else ("unknown", "")

/-- `isDNInOU` (src/unnamed/part_016): the DN strictly extends the OU as
a suffix. -/
def isDNInOU (dn ou : String) : Bool :=
  !(dn == "") && !(ou == "") && decide (ou.length < dn.length) && ou.data.isSuffixOf dn.data

/-- Build the `MockOperation` that `CreateEntry` / `ModifyEntry` /
`DeleteEntry` records for this DN. -/
def mkOp (opType dn : String) : MockOperation :=
  { opType := opType, dn := dn, entityID := (getEntityTypeAndID dn).2,
    etype := (getEntityTypeAndID dn).1 }

/-- `Existing[dn] = true` (map write; no duplicate entries). -/
def setExisting (st : List String) (dn : String) : List String :=
  if st.contains dn then st else st ++ [dn]

/-- `MockClient.GetExistingEntries`: DNs that exist and lie in the OU. -/
def getExistingEntries (st : List String) (ou : String) : List String :=
  st.filter (fun dn => isDNInOU dn ou)

/-- The classification loop of `SyncAll`: each configured entity whose DN
is among the observed DNs goes to the modify set (and is removed from
the observed pool), the rest go to the add set; what remains of the pool
afterwards is the delete set. -/
def splitAddModify {α : Type} (toDN : String → String) :
    List (String × α) → List String → List (String × α) × List (String × α) × List String
  | [], ex => ([], [], ex)
  | (uid, x) :: rest, ex =>
    let dn := toDN uid
    if ex.contains dn then
      let r := splitAddModify toDN rest (ex.erase dn)
      (r.1, (uid, x) :: r.2.1, r.2.2)
    else
      let r := splitAddModify toDN rest ex
      ((uid, x) :: r.1, r.2.1, r.2.2)

/-- The add/modify loops over people or service accounts:
`MockClient.SyncPerson` / `SyncSvcAcct` record a modify if the DN exists
and otherwise record a create and mark it existing. -/
def runSyncAccounts (toDN : String → String) :
    List String → List String → List MockOperation × List String
  | [], st => ([], st)
  | uid :: rest, st =>
    let dn := toDN uid
    if st.contains dn then
      let r := runSyncAccounts toDN rest st
      (mkOp "modify" dn :: r.1, r.2)
    else
      let r := runSyncAccounts toDN rest (setExisting st dn)
      (mkOp "create" dn :: r.1, r.2)

/-- `MockClient.SyncGroup`: resolve members; an empty group is deleted if
present and skipped otherwise; a nonempty group is modified if present
and created otherwise. -/
def syncGroupMock (cfg : LDAPEnforcerConfig) (st : List String) (groupname : String) :
    List MockOperation × List String :=
  let dn := GroupToDN cfg.enforcedGroupOU groupname
  let members := getGroupMembersRun cfg groupname
  if members.length == 0 then
    if st.contains dn then ([mkOp "delete" dn], st.erase dn) else ([], st)
  else if st.contains dn then ([mkOp "modify" dn], st)
  else ([mkOp "create" dn], setExisting st dn)

/-- The group phase of `SyncAll`: walk the topological order; names in
the add set or the modify set are synced, others are skipped. -/
def runGroupPhase (cfg : LDAPEnforcerConfig) (toAdd toModify : List (String × Group)) :
    List String → List String → List MockOperation × List String
  | [], st => ([], st)
  | groupname :: rest, st =>
    match toAdd.lookup groupname with
    | some _ =>
      let r1 := syncGroupMock cfg st groupname
      let r2 := runGroupPhase cfg toAdd toModify rest r1.2
      (r1.1 ++ r2.1, r2.2)
    | none =>
      match toModify.lookup groupname with
      | some _ =>
        let r1 := syncGroupMock cfg st groupname
        let r2 := runGroupPhase cfg toAdd toModify rest r1.2
        (r1.1 ++ r2.1, r2.2)
      | none => runGroupPhase cfg toAdd toModify rest st

/-- A delete loop of `SyncAll`: record a delete for each DN and clear it
from the state. -/
def runDeletes : List String → List String → List MockOperation × List String
  | [], st => ([], st)
  | dn :: rest, st =>
    let r := runDeletes rest (st.erase dn)
    (mkOp "delete" dn :: r.1, r.2)

/-- `MockClient.SyncAll` (src/unnamed/part_016; the live client's
`SyncAll` in internal/ldap/operations.go performs the same operations
against LDAP): ensure OUs, snapshot the observed DNs per OU, classify
into add/modify/delete sets, then execute adds and modifies for people
and service accounts, the group phase in topological order, and finally
the three delete loops (groups, people, service accounts). -/
def syncAllMock (cfg : LDAPEnforcerConfig) (st0 : List String) :
    List MockOperation × List String :=
  let st1 := setExisting (setExisting (setExisting st0 cfg.enforcedPeopleOU)
    cfg.enforcedSvcAcctOU) cfg.enforcedGroupOU
  let existingPeople := getExistingEntries st1 cfg.enforcedPeopleOU
  let existingSvcAccts := getExistingEntries st1 cfg.enforcedSvcAcctOU
  let existingGroups := getExistingEntries st1 cfg.enforcedGroupOU
  let splitP := splitAddModify (PersonToDN cfg.enforcedPeopleOU) cfg.person existingPeople
  let splitS := splitAddModify (SvcAcctToDN cfg.enforcedSvcAcctOU) cfg.svcacct existingSvcAccts
  let splitG := splitAddModify (GroupToDN cfg.enforcedGroupOU) cfg.group existingGroups
  let groupDeps := collectDeps cfg
  let groupOrder := topologicalSortGroups (cfg.group.map (fun kv => kv.1)) groupDeps
  let rPA :=
    runSyncAccounts (PersonToDN cfg.enforcedPeopleOU) (splitP.1.map (fun kv => kv.1)) st1
  let rPM :=
    runSyncAccounts (PersonToDN cfg.enforcedPeopleOU) (splitP.2.1.map (fun kv => kv.1)) rPA.2
  let rSA :=
    runSyncAccounts (SvcAcctToDN cfg.enforcedSvcAcctOU) (splitS.1.map (fun kv => kv.1)) rPM.2
  let rSM :=
    runSyncAccounts (SvcAcctToDN cfg.enforcedSvcAcctOU) (splitS.2.1.map (fun kv => kv.1)) rSA.2
  let rG := runGroupPhase cfg splitG.1 splitG.2.1 groupOrder rSM.2
  let rDG := runDeletes splitG.2.2 rG.2
  let rDP := runDeletes splitP.2.2 rDG.2
  let rDS := runDeletes splitS.2.2 rDP.2
  (rPA.1 ++ rPM.1 ++ rSA.1 ++ rSM.1 ++ rG.1 ++ rDG.1 ++ rDP.1 ++ rDS.1, rDS.2)

/-- Two OU strings, neither of which is a suffix of the other (so no DN
can lie in both OUs).  The realistic managed layouts — three sibling
OUs — satisfy this. -/
def ouSeparated (a b : String) : Bool :=
  !(a.data.isSuffixOf b.data) && !(b.data.isSuffixOf a.data)

/-- Pairwise separation of the three managed OUs. -/
def ousSeparated (cfg : LDAPEnforcerConfig) : Bool :=
  ouSeparated cfg.enforcedPeopleOU cfg.enforcedSvcAcctOU &&
  ouSeparated cfg.enforcedPeopleOU cfg.enforcedGroupOU &&
  ouSeparated cfg.enforcedSvcAcctOU cfg.enforcedGroupOU

/-! ## The live client's SyncGroup (internal/ldap/operations.go) -/

/-- The error message `GetGroupAttributes` produces for a group that
resolves to zero members. -/
def emptyGroupMsg (groupname : String) : String :=
  "group has no members after resolving: " ++ groupname

/-- `Client.GetGroupAttributes` (internal/ldap/operations.go 425-466):
base attributes, then the resolved member DNs; zero members is an error;
POSIX groups additionally get the posixGroup class and gidNumber. -/
def GetGroupAttributes (cfg : LDAPEnforcerConfig) (groupname : String) (group : Group) :
    Except String (List (String × List String)) :=
  let members := getGroupMembersRun cfg groupname
  let memberDNs := members.map (fun m => m.dn)
  if memberDNs.length == 0 then .error (emptyGroupMsg groupname)
  else
    let objectClasses :=
      if group.isPosix then ["top", "groupOfNames", "posixGroup"] else ["top", "groupOfNames"]
    let base :=
      [("objectClass", objectClasses), ("cn", [groupname]),
       ("description", [group.description]), ("member", memberDNs)]
    .ok (if group.isPosix then base ++ [("gidNumber", [toString group.posixGidNumber])] else base)

/-- The directory action `Client.SyncGroup` decides on. -/
inductive SyncGroupAction where
  | createEntry (dn : String) (attrs : List (String × List String))
  | modifyEntry (dn : String) (attrs : List (String × List String))
  | deleteEntry (dn : String)
  | skip
  | fail (msg : String)
deriving Repr, DecidableEq

/-- `Client.SyncGroup` (internal/ldap/operations.go 704-735), with the
observed existence of the entry abstracted as `present`: an
attribute-computation error equal to the empty-group message becomes
delete-if-present / skip (returning nil); any other error propagates;
otherwise modify if present, else create. -/
def SyncGroup (cfg : LDAPEnforcerConfig) (groupname : String) (group : Group)
    (present : Bool) : SyncGroupAction :=
  let dn := GroupToDN cfg.enforcedGroupOU groupname
  match GetGroupAttributes cfg groupname group with
  | .error e =>
    if e == emptyGroupMsg groupname then
      if present then .deleteEntry dn else .skip
    else .fail e
  | .ok attrs => if present then .modifyEntry dn attrs else .createEntry dn attrs

/-! ## Config.Validate (internal/config/config.go 609-635) -/

/-- `Config.Validate`: connection fields only.  Returns the error message
or `none` for a valid config. -/
def Validate (c : LDAPEnforcerConfig) : Option String :=
  if c.uri == "" then some "LDAP URI is required"
  else if c.bindDN == "" then some "bind DN is required"
  else if c.password == "" && c.passwordFile == "" && c.passwordCommand == "" then
    some "one of password, password_file, or password_command must be provided"
  else if c.enforcedPeopleOU == "" then some "enforced people OU is required"
  else if c.enforcedSvcAcctOU == "" then some "enforced service account OU is required"
  else if c.enforcedGroupOU == "" then some "enforced group OU is required"
  else none

/-! ## The polling loop (`syncCmd` / `reloadConfig`, src/unnamed/part_007)

The loop multiplexes a config-check ticker, an LDAP ticker and a signal
channel.  Timer events and the outcomes of the fallible sub-operations
(config-change check, config load, file-monitoring re-initialization,
sync) are oracle inputs to a pure step function; the state is the global
configuration snapshot `cfg`. -/

/-- Outcome of `reloadConfig`: (returned error if any, the global config
after the call).  `loadResult` is the outcome of `config.LoadConfig`
(`none` = load/parse error); `monitorOk` is whether
`InitConfigFileMonitoring` succeeds; `syncOk` is whether the `runSync`
at the end of `reloadConfig` succeeds.  The global `cfg` is replaced as
soon as the load succeeds, before monitoring re-initialization and the
sync. -/
def reloadConfig (cfgOld : LDAPEnforcerConfig) (loadResult : Option LDAPEnforcerConfig)
    (monitorOk syncOk : Bool) : Option String × LDAPEnforcerConfig :=
  match loadResult with
  | none => (some "error reloading config", cfgOld)
  | some newCfg =>
    if !monitorOk then (some "error reinitializing file monitoring", newCfg)
    else if !syncOk then (some "error during sync after config reload", newCfg)
    else (none, newCfg)

/-- One event of the main polling loop, carrying the outcomes of the
fallible calls made while handling it. -/
inductive LoopEvent where
  | configTickCheckErr
  | configTickUnchanged
  | configTickChanged (loadResult : Option LDAPEnforcerConfig) (monitorOk reloadSyncOk postSyncOk : Bool)
  | ldapTick (syncOk : Bool)
  | interruptSignal
deriving DecidableEq

/-- One iteration of the `select` loop in `syncCmd` (src/unnamed/part_007
lines 107-150): every error path prints and continues; only the signal
case returns.  Result: (config snapshot afterwards, whether the loop
continues). -/
def loopStep (cfg : LDAPEnforcerConfig) (ev : LoopEvent) : LDAPEnforcerConfig × Bool :=
  match ev with
  | .configTickCheckErr => (cfg, true)
  | .configTickUnchanged => (cfg, true)
  | .configTickChanged loadResult monitorOk reloadSyncOk _postSyncOk =>
    match reloadConfig cfg loadResult monitorOk reloadSyncOk with
    | (_, cfg') => (cfg', true)
  | .ldapTick _ => (cfg, true)
  | .interruptSignal => (cfg, false)

/-! ## Concrete fixtures -/

/-- The configuration of `TestGroupUserReplacement` (src/unnamed/part_017):
one configured person `newuser` and one group `testgroup` whose sole
member is `newuser`. -/
def swapCfg : LDAPEnforcerConfig :=
  { uri := "ldap://localhost:389", bindDN := "cn=admin,dc=example,dc=com", password := "admin",
    enforcedPeopleOU := "ou=people,dc=example,dc=com",
    enforcedSvcAcctOU := "ou=svcaccts,dc=example,dc=com",
    enforcedGroupOU := "ou=groups,dc=example,dc=com",
    person := [("newuser",
      { cn := "New User", givenName := "New", sn := "User", mail := "newuser@example.com" })],
    group := [("testgroup", { description := "Test Group", people := ["newuser"] })] }

/-- The observed directory of `TestGroupUserReplacement`: `olduser`
exists, and `testgroup` exists (still referencing `olduser`). -/
def swapSt : List String :=
  ["uid=olduser,ou=people,dc=example,dc=com", "cn=testgroup,ou=groups,dc=example,dc=com"]

/-- A configuration whose single group `emptyg` resolves to zero
members. -/
def emptyGroupCfg : LDAPEnforcerConfig :=
  { uri := "ldap://localhost:389", bindDN := "cn=admin,dc=example,dc=com", password := "admin",
    enforcedPeopleOU := "ou=people,dc=example,dc=com",
    enforcedSvcAcctOU := "ou=svcaccts,dc=example,dc=com",
    enforcedGroupOU := "ou=groups,dc=example,dc=com",
    group := [("emptyg", { description := "Empty group" })] }

/-- The spec section-8 scenario: group `admins` containing `alice`,
directory initially empty. -/
def scenarioCfg : LDAPEnforcerConfig :=
  { uri := "ldap://localhost:389", bindDN := "cn=admin,dc=example,dc=com", password := "admin",
    enforcedPeopleOU := "ou=people,dc=example,dc=com",
    enforcedSvcAcctOU := "ou=svcaccts,dc=example,dc=com",
    enforcedGroupOU := "ou=groups,dc=example,dc=com",
    person := [("alice", { cn := "Alice Person" })],
    group := [("admins", { description := "Admins", people := ["alice"] })] }

/-- A configuration that `Validate` accepts although it contains a group
with an empty description and a person whose posix list has length one. -/
def malformedCfg : LDAPEnforcerConfig :=
  { uri := "ldap://localhost:389", bindDN := "cn=admin,dc=example,dc=com", password := "admin",
    enforcedPeopleOU := "ou=people,dc=example,dc=com",
    enforcedSvcAcctOU := "ou=svcaccts,dc=example,dc=com",
    enforcedGroupOU := "ou=groups,dc=example,dc=com",
    person := [("bob", { cn := "Bob Person", posix := [1001] })],
    group := [("engineering", { description := "", people := ["bob"] })] }

/-- Membership fixture for the duplication claim: `alice` is both a
direct member of `dupG` and a member of the group nested in it. -/
def dupGroups : List (String × Group) :=
  [("dupG", { description := "G", people := ["alice"], groups := ["dupH"] }),
   ("dupH", { description := "H", people := ["alice"] })]

/-- People map for the duplication fixture. -/
def dupPeople : List (String × Person) :=
  [("alice", { cn := "Alice Person" }), ("bob", { cn := "Bob Person" })]

/-- Membership fixture where the same group is nested twice. -/
def twiceGroups : List (String × Group) :=
  [("tG", { description := "G", groups := ["tH", "tH"] }),
   ("tH", { description := "H", people := ["bob"] })]

/-- Two distinct configurations for the reload claim. -/
def reloadCfgOld : LDAPEnforcerConfig :=
  { uri := "ldap://old.example.com", bindDN := "cn=admin,dc=example,dc=com", password := "pw",
    enforcedPeopleOU := "ou=people,dc=example,dc=com",
    enforcedSvcAcctOU := "ou=svcaccts,dc=example,dc=com",
    enforcedGroupOU := "ou=groups,dc=example,dc=com" }

/-- The configuration a successful load during reload produces. -/
def reloadCfgNew : LDAPEnforcerConfig :=
  { reloadCfgOld with uri := "ldap://new.example.com" }

/-! ## Theorems -/

/-- Claim C2 (code bug): `topologicalSortGroups` is documented to return
dependencies first, and the claim states every group precedes any group
that embeds it; but on config groups G and H where G depends on
(embeds) H, the function returns [G, H]: the final reversal of the DFS
postorder puts dependencies last, contradicting the function's own doc
comment. -/
theorem topologicalSortGroups_puts_embedder_first :
    topologicalSortGroups ["G", "H"] [("G", ["H"])] = ["G", "H"] := by
  rfl

/-- Claim C7 (code bug): `Validate` accepts a configuration containing a
group with an empty (missing) description and a person whose posix list
has length one, although the configuration documentation marks the
description as required and POSIX-ness as an all-or-nothing pair. -/
theorem validate_accepts_malformed_entities :
    Validate malformedCfg = none ∧
    (malformedCfg.group.lookup "engineering").map (fun g => g.description) = some "" ∧
    (malformedCfg.person.lookup "bob").map (fun p => p.posix.length) = some 1 := by
  decide

/-- Every character of the list maps to itself under `escapeChar`. -/
theorem flatMap_escapeChar_eq_self :
    ∀ l : List Char, (∀ c ∈ l, mustEscape c = false) → l.flatMap escapeChar = l := by
  intro l h
  induction l with
  | nil => rfl
  | cons c rest ih =>
    have hc : mustEscape c = false := h c (by simp)
    have hrest := ih (fun x hx => h x (by simp [hx]))
    simp [List.flatMap_cons, escapeChar, hc, hrest]

/-- `EscapeFilter` is the identity on strings with no escaped
character. -/
theorem escapeFilter_eq_self (s : String) (h : ∀ c ∈ s.data, mustEscape c = false) :
    EscapeFilter s = s := by
  cases s with
  | mk data => simp [EscapeFilter, flatMap_escapeChar_eq_self data h]

/-- Claim C9: on uids containing no LDAP-filter metacharacter, the
resolver's unescaped `createPersonDN` and the sync path's escaping
`PersonToDN` build the same DN; on a uid containing `*` they differ, so
a managed group's member attribute need not reference the DN at which
the account was created. -/
theorem createPersonDN_eq_PersonToDN_iff_escape_free :
    (∀ uid ou : String, (∀ c ∈ uid.data, mustEscape c = false) →
      createPersonDN uid ou = PersonToDN ou uid) ∧
    createPersonDN "user*1" "ou=people,dc=example,dc=com" ≠
      PersonToDN "ou=people,dc=example,dc=com" "user*1" := by
  constructor
  · intro uid ou h
    simp [createPersonDN, PersonToDN, escapeFilter_eq_self uid h]
  · decide

/-- Witness for claim C9: the equality at an escape-free uid. -/
theorem createPersonDN_eq_PersonToDN_witness :
    createPersonDN "alice" "ou=people,dc=example,dc=com" =
      PersonToDN "ou=people,dc=example,dc=com" "alice" :=
  createPersonDN_eq_PersonToDN_iff_escape_free.1 "alice" "ou=people,dc=example,dc=com"
    (by decide)

/-- Claim C10: membership resolution deduplicates groups but not
members: a group nested twice contributes its members once, while an
account reachable both directly and through a nested group appears
twice in the result. -/
theorem getGroupMembers_dedups_groups_not_members :
    (GetGroupMembers dupGroups dupPeople [] "ou=p" "ou=s" "ou=g" "dupG").map
        (fun l => l.map (fun m => m.dn)) =
      some ["uid=alice,ou=p", "uid=alice,ou=p"] ∧
    (GetGroupMembers twiceGroups dupPeople [] "ou=p" "ou=s" "ou=g" "tG").map
        (fun l => l.map (fun m => m.dn)) =
      some ["uid=bob,ou=p"] := by
  decide

/-- Counterexample for claim C8: a reload whose load step succeeds but
whose post-reload sync fails returns an error, yet the newly loaded
configuration has replaced the last-good snapshot. -/
theorem reloadConfig_failed_reload_replaces_snapshot :
    (reloadConfig reloadCfgOld (some reloadCfgNew) true false).1.isSome = true ∧
    (reloadConfig reloadCfgOld (some reloadCfgNew) true false).2 ≠ reloadCfgOld ∧
    loopStep reloadCfgOld (.configTickChanged (some reloadCfgNew) true false true) =
      (reloadCfgNew, true) := by
  decide

/-- Claim C8 as amended: every event other than the interrupt signal
leaves the polling loop running; a reload whose configuration-load step
fails keeps the last-good snapshot; but as soon as the load succeeds the
new configuration is installed, even when monitoring re-initialization
or the post-reload sync then fails. -/
theorem loopStep_survives_and_reload_snapshot :
    (∀ (cfg : LDAPEnforcerConfig) (ev : LoopEvent), ev ≠ .interruptSignal →
      (loopStep cfg ev).2 = true) ∧
    (∀ (cfg : LDAPEnforcerConfig) (monitorOk syncOk : Bool),
      reloadConfig cfg none monitorOk syncOk = (some "error reloading config", cfg)) ∧
    (∀ (cfg newCfg : LDAPEnforcerConfig) (monitorOk syncOk : Bool),
      (reloadConfig cfg (some newCfg) monitorOk syncOk).2 = newCfg) := by
  refine ⟨?_, ?_, ?_⟩
  · intro cfg ev hev
    cases ev with
    | configTickCheckErr => rfl
    | configTickUnchanged => rfl
    | configTickChanged loadResult monitorOk reloadSyncOk postSyncOk =>
      cases loadResult <;> simp [loopStep, reloadConfig]
    | ldapTick syncOk => rfl
    | interruptSignal => exact absurd rfl hev
  · intro cfg monitorOk syncOk; rfl
  · intro cfg newCfg monitorOk syncOk
    cases monitorOk <;> cases syncOk <;> rfl

/-- Witness for claim C8: the loop continues on an LDAP-tick whose sync
fails. -/
theorem loopStep_survives_witness :
    (loopStep reloadCfgOld (.ldapTick false)).2 = true :=
  loopStep_survives_and_reload_snapshot.1 reloadCfgOld (.ldapTick false) (by decide)

/-- Claim C4: when membership resolution yields zero members,
`SyncGroup` deletes the group's entry exactly when it already exists and
otherwise performs no directory operation; in both cases the empty-group
condition is handled locally and no error (and no create) is
produced. -/
theorem syncGroup_empty_group_delete_or_skip (cfg : LDAPEnforcerConfig)
    (groupname : String) (group : Group) (present : Bool)
    (h : getGroupMembersRun cfg groupname = []) :
    SyncGroup cfg groupname group present =
      (if present then .deleteEntry (GroupToDN cfg.enforcedGroupOU groupname) else .skip) := by
  simp [SyncGroup, GetGroupAttributes, h]

/-- Witness for claim C4: the empty group of `emptyGroupCfg` is deleted
when present. -/
theorem syncGroup_empty_group_witness :
    SyncGroup emptyGroupCfg "emptyg" { description := "Empty group" } true =
      .deleteEntry (GroupToDN emptyGroupCfg.enforcedGroupOU "emptyg") := by
  simpa using
    syncGroup_empty_group_delete_or_skip emptyGroupCfg "emptyg" { description := "Empty group" }
      true (by decide)

/-! ### Termination of membership resolution -/

/-- The processed set only grows through `nestedLoop`. -/
theorem nestedLoop_subset
    (resolve : String → List String → Option (List Member × List String))
    (hres : ∀ n p ms p', resolve n p = some (ms, p') → ∀ x ∈ p, x ∈ p') :
    ∀ names p ms p', nestedLoop resolve names p = some (ms, p') → ∀ x ∈ p, x ∈ p' := by
  intro names
  induction names with
  | nil =>
    intro p ms p' h x hx
    simp [nestedLoop] at h
    exact h.2 ▸ hx
  | cons n rest ih =>
    intro p ms p' h x hx
    rw [nestedLoop] at h
    by_cases hc : p.contains n
    · rw [if_pos hc] at h
      exact ih p ms p' h x hx
    · rw [if_neg hc] at h
      cases hr : resolve n p with
      | none => rw [hr] at h; exact absurd h (by simp)
      | some r =>
        obtain ⟨ms1, p1⟩ := r
        rw [hr] at h
        dsimp only at h
        cases hr2 : nestedLoop resolve rest p1 with
        | none => rw [hr2] at h; exact absurd h (by simp)
        | some r2 =>
          obtain ⟨ms2, p2⟩ := r2
          rw [hr2] at h
          simp at h
          exact h.2 ▸ ih p1 ms2 p2 hr2 x (hres n p ms1 p1 hr x hx)

/-- The processed set only grows through `getNestedGroupMembersFuel`. -/
theorem getNestedGroupMembersFuel_subset (groups : List (String × Group))
    (people : List (String × Person)) (svcaccts : List (String × SvcAcct)) (pOU sOU : String) :
    ∀ fuel name p ms p',
      getNestedGroupMembersFuel groups people svcaccts pOU sOU fuel name p = some (ms, p') →
      ∀ x ∈ p, x ∈ p' := by
  intro fuel
  induction fuel with
  | zero => intro name p ms p' h; simp [getNestedGroupMembersFuel] at h
  | succ f ih =>
    intro name p ms p' h x hx
    rw [getNestedGroupMembersFuel] at h
    cases hl : groups.lookup name with
    | none =>
      rw [hl] at h
      simp at h
      exact h.2 ▸ hx
    | some g =>
      rw [hl] at h
      dsimp only at h
      cases hn : nestedLoop
          (fun n pr => getNestedGroupMembersFuel groups people svcaccts pOU sOU f n pr)
          g.groups (name :: p) with
      | none => rw [hn] at h; exact absurd h (by simp)
      | some r =>
        obtain ⟨ms1, p1⟩ := r
        rw [hn] at h
        simp at h
        refine h.2 ▸ ?_
        exact nestedLoop_subset _ (fun n pr ms2 p2 hc => ih n pr ms2 p2 hc)
          g.groups (name :: p) ms1 p1 hn x (by simp [hx])

/-- Membership and `List.contains` agree for strings. -/
theorem contains_iff_mem {l : List String} {a : String} : l.contains a = true ↔ a ∈ l := by
  simp [List.contains_iff_exists_mem_beq]

/-- A larger processed set leaves fewer unprocessed entries. -/
theorem unprocessedCount_le_of_subset (groups : List (String × Group)) {p p' : List String}
    (h : ∀ x ∈ p, x ∈ p') : unprocessedCount groups p' ≤ unprocessedCount groups p := by
  induction groups with
  | nil => simp [unprocessedCount]
  | cons kv rest ih =>
    simp only [unprocessedCount, List.filter] at ih ⊢
    by_cases hk : p.contains kv.1
    · have hk' : p'.contains kv.1 = true :=
        contains_iff_mem.2 (h kv.1 (contains_iff_mem.1 hk))
      simp only [hk, hk', Bool.not_true]
      exact ih
    · rcases hk2 : p'.contains kv.1 with _ | _
      · simp only [eq_false_of_ne_true hk, hk2, Bool.not_false]
        simpa using Nat.succ_le_succ ih
      · simp only [eq_false_of_ne_true hk, hk2, Bool.not_false, Bool.not_true]
        exact Nat.le_succ_of_le ih

/-- Processing a key of the group map strictly decreases the number of
unprocessed entries. -/
theorem unprocessedCount_cons_lt (groups : List (String × Group)) (name : String)
    {g : Group} (hl : groups.lookup name = some g) {p : List String}
    (hc : p.contains name = false) :
    unprocessedCount groups (name :: p) < unprocessedCount groups p := by
  induction groups with
  | nil => simp [List.lookup] at hl
  | cons kv rest ih =>
    obtain ⟨k, v⟩ := kv
    rw [List.lookup] at hl
    rcases hk : name == k with _ | _
    · rw [hk] at hl
      have hk' : (name == k) = false := hk
      have hkn : name ≠ k := by
        intro he; rw [he] at hk'; simp at hk'
      have hcons : (name :: p).contains k = p.contains k := by
        have hb : (k == name) = false := by
          rcases h : k == name with _ | _
          · rfl
          · exact absurd (eq_of_beq h).symm hkn
        simp only [List.contains_cons, hb, Bool.false_or]
      simp only [unprocessedCount, List.filter, hcons]
      have := ih hl
      simp only [unprocessedCount] at this
      rcases hpk : p.contains k with _ | _
      · simp only [hpk, Bool.not_false, List.length_cons]
        omega
      · simp only [hpk, Bool.not_true]
        exact this
    · have hk' : name = k := by
        have : (name == k) = true := hk
        exact eq_of_beq this
      subst hk'
      have h1 : p.contains name = false := hc
      have h2 : ((name :: p).contains name) = true := by simp
      simp only [unprocessedCount, List.filter, h1, h2, Bool.not_false, Bool.not_true]
      have hle : ((rest.filter fun kv => !((name :: p).contains kv.1)).length : Nat) ≤
          (rest.filter fun kv => !(p.contains kv.1)).length := by
        have := @unprocessedCount_le_of_subset rest p (name :: p) (fun x hx => by simp [hx])
        simpa [unprocessedCount] using this
      simp only [List.length_cons]
      omega

/-- With one key already processed, fewer than `groups.length` entries
remain unprocessed. -/
theorem unprocessedCount_singleton_lt (groups : List (String × Group)) (name : String)
    {g : Group} (hl : groups.lookup name = some g) :
    unprocessedCount groups [name] < groups.length := by
  induction groups with
  | nil => simp [List.lookup] at hl
  | cons kv rest ih =>
    obtain ⟨k, v⟩ := kv
    rw [List.lookup] at hl
    rcases hk : name == k with _ | _
    · rw [hk] at hl
      have h1 : ([name].contains k) = false := by
        rcases h2 : [name].contains k with _ | _
        · rfl
        · have : k ∈ [name] := contains_iff_mem.1 h2
          simp at this
          rw [this] at hk
          simp at hk
      simp only [unprocessedCount, List.filter, h1, Bool.not_false]
      have := ih hl
      simp only [unprocessedCount] at this
      simpa using Nat.succ_lt_succ this
    · have hk' : name = k := eq_of_beq hk
      subst hk'
      have h2 : ([name].contains name) = true := by simp
      simp only [unprocessedCount, List.filter, h2, Bool.not_true]
      have : ((rest.filter fun kv => !([name].contains kv.1)).length : Nat) ≤ rest.length :=
        List.length_filter_le _ _
      simp only [List.length_cons]
      omega

/-- With enough fuel for the unprocessed entries, `nestedLoop` cannot
exhaust its fuel. -/
theorem nestedLoop_isSome (groups : List (String × Group))
    (resolve : String → List String → Option (List Member × List String)) (B : Nat)
    (hsub : ∀ n p ms p', resolve n p = some (ms, p') → ∀ x ∈ p, x ∈ p')
    (hres : ∀ n p, p.contains n = false → unprocessedCount groups p ≤ B →
      (resolve n p).isSome = true) :
    ∀ names p, unprocessedCount groups p ≤ B → (nestedLoop resolve names p).isSome = true := by
  intro names
  induction names with
  | nil => intro p hp; simp [nestedLoop]
  | cons n rest ih =>
    intro p hp
    rw [nestedLoop]
    by_cases hc : p.contains n
    · rw [if_pos hc]; exact ih p hp
    · rw [if_neg hc]
      have h1 := hres n p (eq_false_of_ne_true hc) hp
      obtain ⟨⟨ms1, p1⟩, hr⟩ := Option.isSome_iff_exists.1 h1
      rw [hr]
      dsimp only
      have hp1 : unprocessedCount groups p1 ≤ B :=
        le_trans (unprocessedCount_le_of_subset groups (hsub n p ms1 p1 hr)) hp
      have h2 := ih p1 hp1
      obtain ⟨⟨ms2, p2⟩, hr2⟩ := Option.isSome_iff_exists.1 h2
      rw [hr2]
      rfl

/-- With fuel exceeding the number of unprocessed entries,
`getNestedGroupMembersFuel` cannot exhaust its fuel. -/
theorem getNestedGroupMembersFuel_isSome (groups : List (String × Group))
    (people : List (String × Person)) (svcaccts : List (String × SvcAcct)) (pOU sOU : String) :
    ∀ fuel name p, p.contains name = false → unprocessedCount groups p < fuel →
      (getNestedGroupMembersFuel groups people svcaccts pOU sOU fuel name p).isSome = true := by
  intro fuel
  induction fuel with
  | zero => intro name p _ h; omega
  | succ f ih =>
    intro name p hc hf
    rw [getNestedGroupMembersFuel]
    cases hl : groups.lookup name with
    | none => simp
    | some g =>
      dsimp only
      have hlt : unprocessedCount groups (name :: p) < unprocessedCount groups p :=
        unprocessedCount_cons_lt groups name hl hc
      have hloop := nestedLoop_isSome groups
        (fun n pr => getNestedGroupMembersFuel groups people svcaccts pOU sOU f n pr)
        (unprocessedCount groups (name :: p))
        (fun n pr ms p' hcall => getNestedGroupMembersFuel_subset groups people svcaccts
          pOU sOU f n pr ms p' hcall)
        (fun n pr hcn hb => ih n pr hcn (by omega))
        g.groups (name :: p) (le_refl _)
      obtain ⟨⟨ms1, p1⟩, hr⟩ := Option.isSome_iff_exists.1 hloop
      rw [hr]
      rfl

/-- `GetGroupMembers` never exhausts its fuel: membership resolution
terminates on every input. -/
theorem GetGroupMembers_isSome (groups : List (String × Group))
    (people : List (String × Person)) (svcaccts : List (String × SvcAcct))
    (pOU sOU gOU : String) (groupname : String) :
    (GetGroupMembers groups people svcaccts pOU sOU gOU groupname).isSome = true := by
  rw [GetGroupMembers]
  cases hl : groups.lookup groupname with
  | none => simp
  | some g =>
    dsimp only
    have hlt : unprocessedCount groups [groupname] < groups.length :=
      unprocessedCount_singleton_lt groups groupname hl
    have hloop := nestedLoop_isSome groups
      (fun n pr => getNestedGroupMembersFuel groups people svcaccts pOU sOU groups.length n pr)
      (unprocessedCount groups [groupname])
      (fun n pr ms p' hcall => getNestedGroupMembersFuel_subset groups people svcaccts
        pOU sOU groups.length n pr ms p' hcall)
      (fun n pr hcn hb =>
        getNestedGroupMembersFuel_isSome groups people svcaccts pOU sOU groups.length n pr hcn
          (by omega))
      g.groups [groupname] (le_refl _)
    obtain ⟨⟨ms1, p1⟩, hr⟩ := Option.isSome_iff_exists.1 hloop
    rw [hr]
    rfl

/-- Claim C5: membership resolution terminates on every input, and for
two groups A and B that each nest the other, resolving A yields exactly
the union of A's and B's direct members (the revisited in-progress group
contributes nothing further). -/
theorem getGroupMembers_terminates_and_cycle_safe :
    (∀ (groups : List (String × Group)) (people : List (String × Person))
        (svcaccts : List (String × SvcAcct)) (pOU sOU gOU name : String),
      (GetGroupMembers groups people svcaccts pOU sOU gOU name).isSome = true) ∧
    (∀ (people : List (String × Person)) (svcaccts : List (String × SvcAcct))
        (pOU sOU gOU : String) (gA gB : Group),
      gA.groups = ["B"] → gB.groups = ["A"] →
      GetGroupMembers [("A", gA), ("B", gB)] people svcaccts pOU sOU gOU "A" =
        some (directMembers people svcaccts pOU sOU gA ++
          directMembers people svcaccts pOU sOU gB)) := by
  constructor
  · exact GetGroupMembers_isSome
  · intro people svcaccts pOU sOU gOU gA gB hA hB
    simp [GetGroupMembers, getNestedGroupMembersFuel, nestedLoop, hA, hB, List.lookup]

/-- Witness for claim C5: the mutual-nesting equation at the concrete
cyclic fixture of `membership_test.go`. -/
theorem getGroupMembers_cycle_safe_witness :
    GetGroupMembers
        [("A", { description := "A", people := ["user1"], groups := ["B"] }),
         ("B", { description := "B", people := ["user2"], groups := ["A"] })]
        dupPeople [] "ou=p" "ou=s" "ou=g" "A" =
      some (directMembers dupPeople [] "ou=p" "ou=s"
          { description := "A", people := ["user1"], groups := ["B"] } ++
        directMembers dupPeople [] "ou=p" "ou=s"
          { description := "B", people := ["user2"], groups := ["A"] }) :=
  getGroupMembers_terminates_and_cycle_safe.2 dupPeople [] "ou=p" "ou=s" "ou=g"
    { description := "A", people := ["user1"], groups := ["B"] }
    { description := "B", people := ["user2"], groups := ["A"] } rfl rfl

/-- Every direct member is a person or a service account. -/
theorem directMembers_types (people : List (String × Person))
    (svcaccts : List (String × SvcAcct)) (pOU sOU : String) (g : Group) :
    ∀ m ∈ directMembers people svcaccts pOU sOU g,
      m.mtype = "person" ∨ m.mtype = "svcacct" := by
  intro m hm
  rw [directMembers, List.mem_append] at hm
  rcases hm with h | h
  · obtain ⟨uid, _, hf⟩ := List.mem_filterMap.1 h
    obtain ⟨p, _, he⟩ := Option.map_eq_some'.1 hf
    left; rw [← he]
  · obtain ⟨uid, _, hf⟩ := List.mem_filterMap.1 h
    obtain ⟨s, _, he⟩ := Option.map_eq_some'.1 hf
    right; rw [← he]

/-- Members collected by `nestedLoop` satisfy any property the resolver
guarantees. -/
theorem nestedLoop_members (P : Member → Prop)
    (resolve : String → List String → Option (List Member × List String))
    (hres : ∀ n p ms p', resolve n p = some (ms, p') → ∀ m ∈ ms, P m) :
    ∀ names p ms p', nestedLoop resolve names p = some (ms, p') → ∀ m ∈ ms, P m := by
  intro names
  induction names with
  | nil =>
    intro p ms p' h m hm
    rw [nestedLoop] at h
    cases h
    simp at hm
  | cons n rest ih =>
    intro p ms p' h m hm
    rw [nestedLoop] at h
    by_cases hc : p.contains n
    · rw [if_pos hc] at h
      exact ih p ms p' h m hm
    · rw [if_neg hc] at h
      cases hr : resolve n p with
      | none => rw [hr] at h; exact absurd h (by simp)
      | some r =>
        obtain ⟨ms1, p1⟩ := r
        rw [hr] at h
        dsimp only at h
        cases hr2 : nestedLoop resolve rest p1 with
        | none => rw [hr2] at h; exact absurd h (by simp)
        | some r2 =>
          obtain ⟨ms2, p2⟩ := r2
          rw [hr2] at h
          simp at h
          rw [← h.1] at hm
          rcases List.mem_append.1 hm with h1 | h2
          · exact hres n p ms1 p1 hr m h1
          · exact ih p1 ms2 p2 hr2 m h2

/-- Members produced by `getNestedGroupMembersFuel` are persons or
service accounts. -/
theorem getNestedGroupMembersFuel_members (groups : List (String × Group))
    (people : List (String × Person)) (svcaccts : List (String × SvcAcct)) (pOU sOU : String) :
    ∀ fuel name p ms p',
      getNestedGroupMembersFuel groups people svcaccts pOU sOU fuel name p = some (ms, p') →
      ∀ m ∈ ms, m.mtype = "person" ∨ m.mtype = "svcacct" := by
  intro fuel
  induction fuel with
  | zero => intro name p ms p' h; simp [getNestedGroupMembersFuel] at h
  | succ f ih =>
    intro name p ms p' h m hm
    rw [getNestedGroupMembersFuel] at h
    cases hl : groups.lookup name with
    | none =>
      rw [hl] at h
      dsimp only at h
      cases h
      simp at hm
    | some g =>
      rw [hl] at h
      dsimp only at h
      cases hn : nestedLoop
          (fun n pr => getNestedGroupMembersFuel groups people svcaccts pOU sOU f n pr)
          g.groups (name :: p) with
      | none => rw [hn] at h; exact absurd h (by simp)
      | some r =>
        obtain ⟨ms1, p1⟩ := r
        rw [hn] at h
        simp at h
        rw [← h.1] at hm
        rcases List.mem_append.1 hm with h1 | h2
        · exact directMembers_types people svcaccts pOU sOU g m h1
        · exact nestedLoop_members _ _ (fun n pr ms2 p2 hc => ih n pr ms2 p2 hc)
            g.groups (name :: p) ms1 p1 hn m h2

/-- Claim C6: flattening is complete and group-free: a group G nesting
leaf groups H1 and H2 resolves to G's direct members followed by H1's
and H2's, and no resolved member is ever a group — every member is a
person or a service account. -/
theorem getGroupMembers_flattening_group_free :
    (∀ (people : List (String × Person)) (svcaccts : List (String × SvcAcct))
        (pOU sOU gOU : String) (gG gH1 gH2 : Group),
      gG.groups = ["H1", "H2"] → gH1.groups = [] → gH2.groups = [] →
      GetGroupMembers [("G", gG), ("H1", gH1), ("H2", gH2)] people svcaccts pOU sOU gOU "G" =
        some (directMembers people svcaccts pOU sOU gG ++
          (directMembers people svcaccts pOU sOU gH1 ++
            directMembers people svcaccts pOU sOU gH2))) ∧
    (∀ (groups : List (String × Group)) (people : List (String × Person))
        (svcaccts : List (String × SvcAcct)) (pOU sOU gOU name : String),
      ∀ m ∈ (GetGroupMembers groups people svcaccts pOU sOU gOU name).getD [],
        m.mtype = "person" ∨ m.mtype = "svcacct") := by
  constructor
  · intro people svcaccts pOU sOU gOU gG gH1 gH2 hG h1 h2
    simp [GetGroupMembers, getNestedGroupMembersFuel, nestedLoop, hG, h1, h2, List.lookup]
  · intro groups people svcaccts pOU sOU gOU name m hm
    rw [GetGroupMembers] at hm
    cases hl : groups.lookup name with
    | none => rw [hl] at hm; simp at hm
    | some g =>
      rw [hl] at hm
      dsimp only at hm
      cases hn : nestedLoop
          (fun n pr => getNestedGroupMembersFuel groups people svcaccts pOU sOU
            groups.length n pr)
          g.groups [name] with
      | none => rw [hn] at hm; simp at hm
      | some r =>
        obtain ⟨ms1, p1⟩ := r
        rw [hn] at hm
        simp at hm
        rcases hm with h1 | h2
        · exact directMembers_types people svcaccts pOU sOU g m h1
        · exact nestedLoop_members _ _
            (fun n pr ms2 p2 hc =>
              getNestedGroupMembersFuel_members groups people svcaccts pOU sOU
                groups.length n pr ms2 p2 hc)
            g.groups [name] ms1 p1 hn m h2

/-- Witness for claim C6: the flattening equation at the concrete
fixture of `TestSyncWorkflow` (groups admins and users nested in
all). -/
theorem getGroupMembers_flattening_witness :
    GetGroupMembers
        [("G", { description := "All", groups := ["H1", "H2"] }),
         ("H1", { description := "Admins", people := ["alice"] }),
         ("H2", { description := "Users", people := ["bob"] })]
        dupPeople [] "ou=p" "ou=s" "ou=g" "G" =
      some (directMembers dupPeople [] "ou=p" "ou=s"
          { description := "All", groups := ["H1", "H2"] } ++
        (directMembers dupPeople [] "ou=p" "ou=s"
            { description := "Admins", people := ["alice"] } ++
          directMembers dupPeople [] "ou=p" "ou=s"
            { description := "Users", people := ["bob"] })) :=
  getGroupMembers_flattening_group_free.1 dupPeople [] "ou=p" "ou=s" "ou=g"
    { description := "All", groups := ["H1", "H2"] }
    { description := "Admins", people := ["alice"] }
    { description := "Users", people := ["bob"] } rfl rfl rfl

/-! ### String and DN facts -/

/-- String concatenation concatenates the underlying character lists. -/
theorem data_append (a b : String) : (a ++ b).data = a.data ++ b.data := rfl

/-- String length is the length of the underlying character list. -/
theorem string_length_data (s : String) : s.length = s.data.length := rfl

/-- A DN built by prepending a nonempty RDN to an OU lies in that OU. -/
theorem isDNInOU_build (dn ou : String) (c : Char) (rest : List Char)
    (hdata : dn.data = c :: (rest ++ ou.data)) (hou : ou ≠ "") :
    isDNInOU dn ou = true := by
  rw [isDNInOU]
  have h1 : (dn == "") = false := by
    rcases hq : dn == "" with _ | _
    · rfl
    · have := congrArg String.data (eq_of_beq hq)
      rw [hdata] at this
      simp at this
  have h2 : (ou == "") = false := by
    rcases hq : ou == "" with _ | _
    · rfl
    · exact absurd (eq_of_beq hq) hou
  have h3 : ou.length < dn.length := by
    rw [string_length_data, string_length_data, hdata]
    simp
    omega
  have h4 : ou.data.isSuffixOf dn.data = true := by
    rw [List.isSuffixOf_iff_suffix, hdata]
    exact ⟨c :: rest, by simp⟩
  simp [h1, h2, h3, h4]

/-- Group DNs lie in the group OU. -/
theorem isDNInOU_GroupToDN (gOU n : String) (h : gOU ≠ "") :
    isDNInOU (GroupToDN gOU n) gOU = true :=
  isDNInOU_build _ _ 'c' ('n' :: '=' :: (EscapeFilter n).data ++ [','])
    (by simp [GroupToDN, data_append, List.append_assoc]) h

/-- Person DNs lie in the people OU. -/
theorem isDNInOU_PersonToDN (pOU n : String) (h : pOU ≠ "") :
    isDNInOU (PersonToDN pOU n) pOU = true :=
  isDNInOU_build _ _ 'u' ('i' :: 'd' :: '=' :: (EscapeFilter n).data ++ [','])
    (by simp [PersonToDN, data_append, List.append_assoc]) h

/-- Service-account DNs lie in the service-account OU. -/
theorem isDNInOU_SvcAcctToDN (sOU n : String) (h : sOU ≠ "") :
    isDNInOU (SvcAcctToDN sOU n) sOU = true :=
  isDNInOU_build _ _ 'u' ('i' :: 'd' :: '=' :: (EscapeFilter n).data ++ [','])
    (by simp [SvcAcctToDN, data_append, List.append_assoc]) h

/-- No DN lies in two separated OUs. -/
theorem not_isDNInOU_both {a b : String} (hsep : ouSeparated a b = true) (dn : String) :
    ¬(isDNInOU dn a = true ∧ isDNInOU dn b = true) := by
  rintro ⟨ha, hb⟩
  rw [isDNInOU] at ha hb
  simp only [Bool.and_eq_true] at ha hb
  have sa : a.data <:+ dn.data := List.isSuffixOf_iff_suffix.1 ha.2
  have sb : b.data <:+ dn.data := List.isSuffixOf_iff_suffix.1 hb.2
  rw [ouSeparated, Bool.and_eq_true] at hsep
  rcases List.suffix_or_suffix_of_suffix sa sb with h | h
  · have := List.isSuffixOf_iff_suffix.2 h
    rw [this] at hsep
    simp at hsep
  · have := List.isSuffixOf_iff_suffix.2 h
    rw [this] at hsep
    simp at hsep

/-- A group DN's first RDN does not parse as a person. -/
theorem mkOp_GroupToDN_not_person (t gOU n : String) :
    (mkOp t (GroupToDN gOU n)).etype ≠ "person" := by
  have hdata : (GroupToDN gOU n).data =
      'c' :: 'n' :: '=' :: ((EscapeFilter n).data ++ (("," ++ gOU).data)) := by
    simp [GroupToDN, data_append, List.append_assoc]
  rw [mkOp]
  show (getEntityTypeAndID (GroupToDN gOU n)).1 ≠ "person"
  rw [getEntityTypeAndID, hdata]
  simp [List.takeWhile]
  split <;> simp

/-! ### Operation lemmas for the mock SyncAll -/

/-- Keys found by `List.lookup` are keys of the list. -/
theorem mem_keys_of_lookup {β : Type} :
    ∀ (l : List (String × β)) (k : String) (v : β),
      l.lookup k = some v → k ∈ l.map Prod.fst := by
  intro l
  induction l with
  | nil => intro k v h; simp [List.lookup] at h
  | cons kv rest ih =>
    intro k v h
    obtain ⟨a, b⟩ := kv
    rw [List.lookup] at h
    rcases hk : k == a with _ | _
    · rw [hk] at h
      exact List.mem_cons_of_mem _ (ih k v h)
    · have : k = a := eq_of_beq hk
      subst this
      simp

/-- The account sync loops record only creates and modifies. -/
theorem runSyncAccounts_ops (toDN : String → String) :
    ∀ uids st, ∀ op ∈ (runSyncAccounts toDN uids st).1,
      op.opType = "create" ∨ op.opType = "modify" := by
  intro uids
  induction uids with
  | nil => intro st op hop; simp [runSyncAccounts] at hop
  | cons uid rest ih =>
    intro st op hop
    rw [runSyncAccounts] at hop
    by_cases hc : st.contains (toDN uid)
    · rw [if_pos hc] at hop
      rcases List.mem_cons.1 hop with h | h
      · right; rw [h]; rfl
      · exact ih st op h
    · rw [if_neg hc] at hop
      rcases List.mem_cons.1 hop with h | h
      · left; rw [h]; rfl
      · exact ih (setExisting st (toDN uid)) op h

/-- The delete loops record only deletes, of the given DNs. -/
theorem runDeletes_ops :
    ∀ dns st, ∀ op ∈ (runDeletes dns st).1,
      op.opType = "delete" ∧ op.dn ∈ dns := by
  intro dns
  induction dns with
  | nil => intro st op hop; simp [runDeletes] at hop
  | cons dn rest ih =>
    intro st op hop
    rw [runDeletes] at hop
    rcases List.mem_cons.1 hop with h | h
    · rw [h]; exact ⟨rfl, List.mem_cons_self _ _⟩
    · obtain ⟨h1, h2⟩ := ih (st.erase dn) op h
      exact ⟨h1, by simp [h2]⟩

/-- Operations recorded by the mock `SyncGroup` target the group's DN,
are creates, modifies or deletes, and a delete happens only when the
group resolves to zero members. -/
theorem syncGroupMock_ops (cfg : LDAPEnforcerConfig) (st : List String) (name : String) :
    ∀ op ∈ (syncGroupMock cfg st name).1,
      op.dn = GroupToDN cfg.enforcedGroupOU name ∧
      (op.opType = "create" ∨ op.opType = "modify" ∨ op.opType = "delete") ∧
      (op.opType = "delete" → getGroupMembersRun cfg name = []) ∧
      op.etype ≠ "person" := by
  intro op hop
  rw [syncGroupMock] at hop
  by_cases h0 : (getGroupMembersRun cfg name).length == 0
  · rw [if_pos h0] at hop
    have hempty : getGroupMembersRun cfg name = [] := by
      have : (getGroupMembersRun cfg name).length = 0 := beq_iff_eq.mp h0
      exact List.eq_nil_of_length_eq_zero this
    by_cases hc : st.contains (GroupToDN cfg.enforcedGroupOU name)
    · rw [if_pos hc] at hop
      simp at hop
      rw [hop]
      exact ⟨rfl, Or.inr (Or.inr rfl), fun _ => hempty,
        mkOp_GroupToDN_not_person _ cfg.enforcedGroupOU name⟩
    · rw [if_neg hc] at hop
      simp at hop
  · rw [if_neg h0] at hop
    by_cases hc : st.contains (GroupToDN cfg.enforcedGroupOU name)
    · rw [if_pos hc] at hop
      simp at hop
      rw [hop]
      refine ⟨rfl, Or.inr (Or.inl rfl), fun hdel => absurd hdel (by simp [mkOp]),
        mkOp_GroupToDN_not_person _ cfg.enforcedGroupOU name⟩
    · rw [if_neg hc] at hop
      simp at hop
      rw [hop]
      refine ⟨rfl, Or.inl rfl, fun hdel => absurd hdel (by simp [mkOp]),
        mkOp_GroupToDN_not_person _ cfg.enforcedGroupOU name⟩

/-- Operations of the group phase come from the mock `SyncGroup` of some
group in the add or modify set. -/
theorem runGroupPhase_ops (cfg : LDAPEnforcerConfig) (toAdd toMod : List (String × Group)) :
    ∀ order st, ∀ op ∈ (runGroupPhase cfg toAdd toMod order st).1,
      ∃ name, (name ∈ toAdd.map Prod.fst ∨ name ∈ toMod.map Prod.fst) ∧
        op.dn = GroupToDN cfg.enforcedGroupOU name ∧
        (op.opType = "create" ∨ op.opType = "modify" ∨ op.opType = "delete") ∧
        (op.opType = "delete" → getGroupMembersRun cfg name = []) ∧
        op.etype ≠ "person" := by
  intro order
  induction order with
  | nil => intro st op hop; simp [runGroupPhase] at hop
  | cons name rest ih =>
    intro st op hop
    rw [runGroupPhase] at hop
    cases hla : toAdd.lookup name with
    | some g =>
      rw [hla] at hop
      dsimp only at hop
      rcases List.mem_append.1 hop with h | h
      · obtain ⟨h1, h2, h3, h4⟩ := syncGroupMock_ops cfg st name op h
        exact ⟨name, Or.inl (mem_keys_of_lookup toAdd name g hla), h1, h2, h3, h4⟩
      · exact ih _ op h
    | none =>
      rw [hla] at hop
      dsimp only at hop
      cases hlm : toMod.lookup name with
      | some g =>
        rw [hlm] at hop
        dsimp only at hop
        rcases List.mem_append.1 hop with h | h
        · obtain ⟨h1, h2, h3, h4⟩ := syncGroupMock_ops cfg st name op h
          exact ⟨name, Or.inr (mem_keys_of_lookup toMod name g hlm), h1, h2, h3, h4⟩
        · exact ih _ op h
      | none =>
        rw [hlm] at hop
        exact ih st op hop

/-- Entries of the add and modify sets come from the configured list. -/
theorem splitAddModify_addmod_sub {α : Type} (toDN : String → String) :
    ∀ (l : List (String × α)) (ex : List String) (kv : String × α),
      (kv ∈ (splitAddModify toDN l ex).1 ∨ kv ∈ (splitAddModify toDN l ex).2.1) →
      kv ∈ l := by
  intro l
  induction l with
  | nil => intro ex kv h; simp [splitAddModify] at h
  | cons hd rest ih =>
    intro ex kv h
    obtain ⟨uid, x⟩ := hd
    rw [splitAddModify] at h
    by_cases hc : ex.contains (toDN uid)
    · rw [if_pos hc] at h
      dsimp only at h
      rcases h with h | h
      · exact List.mem_cons_of_mem _ (ih _ kv (Or.inl h))
      · rcases List.mem_cons.1 h with h | h
        · rw [h]; simp
        · exact List.mem_cons_of_mem _ (ih _ kv (Or.inr h))
    · rw [if_neg hc] at h
      dsimp only at h
      rcases h with h | h
      · rcases List.mem_cons.1 h with h | h
        · rw [h]; simp
        · exact List.mem_cons_of_mem _ (ih _ kv (Or.inl h))
      · exact List.mem_cons_of_mem _ (ih _ kv (Or.inr h))

/-- DNs left in the delete pool were observed and match no configured
entity's DN. -/
theorem splitAddModify_remaining {α : Type} (toDN : String → String) :
    ∀ (l : List (String × α)) (ex : List String), ex.Nodup →
      ∀ dn ∈ (splitAddModify toDN l ex).2.2,
        dn ∈ ex ∧ ∀ kv ∈ l, toDN kv.1 ≠ dn := by
  intro l
  induction l with
  | nil =>
    intro ex hnd dn h
    rw [splitAddModify] at h
    exact ⟨h, by simp⟩
  | cons hd rest ih =>
    intro ex hnd dn h
    obtain ⟨uid, x⟩ := hd
    rw [splitAddModify] at h
    by_cases hc : ex.contains (toDN uid)
    · rw [if_pos hc] at h
      dsimp only at h
      obtain ⟨h1, h2⟩ := ih (ex.erase (toDN uid)) (hnd.erase _) dn h
      refine ⟨List.mem_of_mem_erase h1, ?_⟩
      intro kv hkv
      rcases List.mem_cons.1 hkv with hkv | hkv
      · rw [hkv]
        intro he
        rw [he] at h1
        exact (hnd.not_mem_erase) h1
      · exact h2 kv hkv
    · rw [if_neg hc] at h
      dsimp only at h
      obtain ⟨h1, h2⟩ := ih ex hnd dn h
      refine ⟨h1, ?_⟩
      intro kv hkv
      rcases List.mem_cons.1 hkv with hkv | hkv
      · rw [hkv]
        intro he
        rw [he] at hc
        exact hc (contains_iff_mem.2 h1)
      · exact h2 kv hkv

/-- Marking a DN as existing preserves distinctness. -/
theorem setExisting_nodup (st : List String) (dn : String) (h : st.Nodup) :
    (setExisting st dn).Nodup := by
  rw [setExisting]
  by_cases hc : st.contains dn
  · rw [if_pos hc]; exact h
  · rw [if_neg hc]
    rw [List.nodup_append]
    refine ⟨h, List.nodup_singleton dn, ?_⟩
    intro x hx hx1
    simp at hx1
    rw [hx1] at hx
    exact hc (contains_iff_mem.2 hx)

/-- In a list split into a front and a back segment, an element
satisfying a property absent from the back precedes any element
satisfying a property absent from the front. -/
theorem segment_index_lt {α : Type} (A B : List α) (P Q : α → Prop)
    (hB : ∀ b ∈ B, ¬ P b) (hA : ∀ a ∈ A, ¬ Q a)
    (i j : Nat) (x y : α) (hx : (A ++ B)[i]? = some x) (hy : (A ++ B)[j]? = some y)
    (hPx : P x) (hQy : Q y) : i < j := by
  have hiA : i < A.length := by
    by_contra hcon
    push_neg at hcon
    rw [List.getElem?_append_right hcon] at hx
    exact hB x (List.getElem?_mem hx) hPx
  have hjB : A.length ≤ j := by
    by_contra hcon
    push_neg at hcon
    rw [List.getElem?_append_left hcon] at hy
    exact hA y (List.getElem?_mem hy) hQy
  omega

/-- The segment ordering argument instantiated to the eight phases of
`syncAllMock`: the first five segments hold the creates and modifies,
the last three the deletes. -/
theorem eight_segment_index_lt {α : Type} (l1 l2 l3 l4 l5 l6 l7 l8 : List α) (P Q : α → Prop)
    (h1 : ∀ a ∈ l1, ¬ Q a) (h2 : ∀ a ∈ l2, ¬ Q a) (h3 : ∀ a ∈ l3, ¬ Q a)
    (h4 : ∀ a ∈ l4, ¬ Q a) (h5 : ∀ a ∈ l5, ¬ Q a)
    (h6 : ∀ b ∈ l6, ¬ P b) (h7 : ∀ b ∈ l7, ¬ P b) (h8 : ∀ b ∈ l8, ¬ P b)
    (i j : Nat) (x y : α)
    (hx : (l1 ++ l2 ++ l3 ++ l4 ++ l5 ++ l6 ++ l7 ++ l8)[i]? = some x)
    (hy : (l1 ++ l2 ++ l3 ++ l4 ++ l5 ++ l6 ++ l7 ++ l8)[j]? = some y)
    (hPx : P x) (hQy : Q y) : i < j := by
  have he : l1 ++ l2 ++ l3 ++ l4 ++ l5 ++ l6 ++ l7 ++ l8 =
      (l1 ++ l2 ++ l3 ++ l4 ++ l5) ++ (l6 ++ l7 ++ l8) := by
    simp [List.append_assoc]
  rw [he] at hx hy
  refine segment_index_lt _ _ P Q ?_ ?_ i j x y hx hy hPx hQy
  · intro b hb
    rcases List.mem_append.1 hb with hb | hb
    · rcases List.mem_append.1 hb with hb | hb
      · exact h6 b hb
      · exact h7 b hb
    · exact h8 b hb
  · intro a ha
    rcases List.mem_append.1 ha with ha | ha
    · rcases List.mem_append.1 ha with ha | ha
      · rcases List.mem_append.1 ha with ha | ha
        · rcases List.mem_append.1 ha with ha | ha
          · exact h1 a ha
          · exact h2 a ha
        · exact h3 a ha
      · exact h4 a ha
    · exact h5 a ha

/-- Counterexample for claim C1: a sync pass deletes the entry of a
group that is present in the configuration's group map (its membership
resolves to zero members), so deletion is not restricted to DNs absent
from the configuration. -/
theorem syncAll_deletes_configured_group :
    mkOp "delete" "cn=emptyg,ou=groups,dc=example,dc=com" ∈
      (syncAllMock emptyGroupCfg ["cn=emptyg,ou=groups,dc=example,dc=com"]).1 ∧
    "emptyg" ∈ emptyGroupCfg.group.map Prod.fst ∧
    GroupToDN emptyGroupCfg.enforcedGroupOU "emptyg" =
      "cn=emptyg,ou=groups,dc=example,dc=com" := by
  decide

/-- Claim C1 as amended: (1) on distinct observed DNs and pairwise
separated OUs, a sync pass deletes a group-OU entry only if its DN
matches no configured group or the matching configured group resolves to
zero members; (2) swapping a group's sole member produces exactly one
account-create, one group-modify and one account-delete, in that order,
and no group delete; (3) every group create or modify is executed before
any account or service-account delete. -/
theorem syncAll_swap_and_delete_discipline :
    (∀ (cfg : LDAPEnforcerConfig) (st0 : List String), st0.Nodup →
      ousSeparated cfg = true →
      ∀ op ∈ (syncAllMock cfg st0).1, op.opType = "delete" →
        isDNInOU op.dn cfg.enforcedGroupOU = true →
        (∀ kv ∈ cfg.group, GroupToDN cfg.enforcedGroupOU kv.1 ≠ op.dn) ∨
        (∃ name, name ∈ cfg.group.map Prod.fst ∧
          GroupToDN cfg.enforcedGroupOU name = op.dn ∧ getGroupMembersRun cfg name = [])) ∧
    ((syncAllMock swapCfg swapSt).1 =
      [mkOp "create" "uid=newuser,ou=people,dc=example,dc=com",
       mkOp "modify" "cn=testgroup,ou=groups,dc=example,dc=com",
       mkOp "delete" "uid=olduser,ou=people,dc=example,dc=com"]) ∧
    (∀ (cfg : LDAPEnforcerConfig) (st0 : List String) (i j : Nat) (opi opj : MockOperation),
      (syncAllMock cfg st0).1[i]? = some opi → (syncAllMock cfg st0).1[j]? = some opj →
      (opi.opType = "create" ∨ opi.opType = "modify") → opi.etype = "group" →
      opj.opType = "delete" → opj.etype = "person" → i < j) := by
  refine ⟨?_, by decide, ?_⟩
  · intro cfg st0 hnd hsep op hop hdel hinOU
    rw [ousSeparated, Bool.and_eq_true, Bool.and_eq_true] at hsep
    have hst1 : (setExisting (setExisting (setExisting st0 cfg.enforcedPeopleOU)
        cfg.enforcedSvcAcctOU) cfg.enforcedGroupOU).Nodup :=
      setExisting_nodup _ _ (setExisting_nodup _ _ (setExisting_nodup _ _ hnd))
    simp only [syncAllMock, List.mem_append] at hop
    rcases hop with (((((((h | h) | h) | h) | h) | h) | h) | h)
    · rcases runSyncAccounts_ops _ _ _ op h with hc | hc <;> simp [hdel] at hc
    · rcases runSyncAccounts_ops _ _ _ op h with hc | hc <;> simp [hdel] at hc
    · rcases runSyncAccounts_ops _ _ _ op h with hc | hc <;> simp [hdel] at hc
    · rcases runSyncAccounts_ops _ _ _ op h with hc | hc <;> simp [hdel] at hc
    · obtain ⟨name, hkeys, hdn, _, hemp, _⟩ := runGroupPhase_ops _ _ _ _ _ op h
      right
      refine ⟨name, ?_, hdn.symm, hemp hdel⟩
      rcases hkeys with hk | hk
      · obtain ⟨kv, hkv, hfst⟩ := List.mem_map.1 hk
        exact hfst ▸ List.mem_map_of_mem _ (splitAddModify_addmod_sub _ _ _ kv (Or.inl hkv))
      · obtain ⟨kv, hkv, hfst⟩ := List.mem_map.1 hk
        exact hfst ▸ List.mem_map_of_mem _ (splitAddModify_addmod_sub _ _ _ kv (Or.inr hkv))
    · obtain ⟨_, hmem⟩ := runDeletes_ops _ _ op h
      left
      have hrem := splitAddModify_remaining (GroupToDN cfg.enforcedGroupOU) cfg.group
        (getExistingEntries _ cfg.enforcedGroupOU) (hst1.filter _) op.dn hmem
      exact hrem.2
    · obtain ⟨_, hmem⟩ := runDeletes_ops _ _ op h
      have hrem := splitAddModify_remaining (PersonToDN cfg.enforcedPeopleOU) cfg.person
        (getExistingEntries _ cfg.enforcedPeopleOU) (hst1.filter _) op.dn hmem
      have hp : isDNInOU op.dn cfg.enforcedPeopleOU = true := by
        have hmem1 := hrem.1
        rw [getExistingEntries] at hmem1
        exact (List.mem_filter.1 hmem1).2
      exact absurd ⟨hp, hinOU⟩ (not_isDNInOU_both hsep.1.2 op.dn)
    · obtain ⟨_, hmem⟩ := runDeletes_ops _ _ op h
      have hrem := splitAddModify_remaining (SvcAcctToDN cfg.enforcedSvcAcctOU) cfg.svcacct
        (getExistingEntries _ cfg.enforcedSvcAcctOU) (hst1.filter _) op.dn hmem
      have hs : isDNInOU op.dn cfg.enforcedSvcAcctOU = true := by
        have hmem1 := hrem.1
        rw [getExistingEntries] at hmem1
        exact (List.mem_filter.1 hmem1).2
      exact absurd ⟨hs, hinOU⟩ (not_isDNInOU_both hsep.2 op.dn)
  · intro cfg st0 i j opi opj hi hj hcm hgety hdel hperson
    simp only [syncAllMock] at hi hj
    refine eight_segment_index_lt _ _ _ _ _ _ _ _
      (fun op => (op.opType = "create" ∨ op.opType = "modify") ∧ op.etype = "group")
      (fun op => op.opType = "delete" ∧ op.etype = "person")
      ?_ ?_ ?_ ?_ ?_ ?_ ?_ ?_ i j opi opj hi hj ⟨hcm, hgety⟩ ⟨hdel, hperson⟩
    · rintro a ha ⟨had, _⟩
      rcases runSyncAccounts_ops _ _ _ a ha with h | h <;> simp [had] at h
    · rintro a ha ⟨had, _⟩
      rcases runSyncAccounts_ops _ _ _ a ha with h | h <;> simp [had] at h
    · rintro a ha ⟨had, _⟩
      rcases runSyncAccounts_ops _ _ _ a ha with h | h <;> simp [had] at h
    · rintro a ha ⟨had, _⟩
      rcases runSyncAccounts_ops _ _ _ a ha with h | h <;> simp [had] at h
    · rintro a ha ⟨had, hat⟩
      obtain ⟨name, _, _, _, _, hnp⟩ := runGroupPhase_ops _ _ _ _ _ a ha
      exact hnp hat
    · rintro b hb ⟨hbd, _⟩
      rcases hbd with h | h <;>
        · have := (runDeletes_ops _ _ b hb).1
          simp [h] at this
    · rintro b hb ⟨hbd, _⟩
      rcases hbd with h | h <;>
        · have := (runDeletes_ops _ _ b hb).1
          simp [h] at this
    · rintro b hb ⟨hbd, _⟩
      rcases hbd with h | h <;>
        · have := (runDeletes_ops _ _ b hb).1
          simp [h] at this

/-- Witness for claim C1: the delete discipline at the empty-group
fixture — the single delete of the pass targets the configured group
whose membership resolved empty. -/
theorem syncAll_delete_discipline_witness :
    (∀ kv ∈ emptyGroupCfg.group,
      GroupToDN emptyGroupCfg.enforcedGroupOU kv.1 ≠
        "cn=emptyg,ou=groups,dc=example,dc=com") ∨
    (∃ name, name ∈ emptyGroupCfg.group.map Prod.fst ∧
      GroupToDN emptyGroupCfg.enforcedGroupOU name =
        "cn=emptyg,ou=groups,dc=example,dc=com" ∧
      getGroupMembersRun emptyGroupCfg name = []) := by
  have happly := syncAll_swap_and_delete_discipline.1 emptyGroupCfg
    ["cn=emptyg,ou=groups,dc=example,dc=com"] (by decide) (by decide)
    (mkOp "delete" "cn=emptyg,ou=groups,dc=example,dc=com") (by decide) (by decide) (by decide)
  simpa using happly

/-! ### Injectivity of escaping and DN construction -/

theorem escapeChar_ne_nil (c : Char) : escapeChar c ≠ [] := by
  rw [escapeChar]
  split <;> simp

theorem mustEscape_cases {c : Char} (h : mustEscape c = true) :
    c = '*' ∨ c = '(' ∨ c = ')' ∨ c = '\\' ∨ c = '\x00' := by
  rw [mustEscape] at h
  simp only [Bool.or_eq_true, beq_iff_eq] at h
  rcases h with (((h | h) | h) | h) | h
  · exact Or.inl h
  · exact Or.inr (Or.inl h)
  · exact Or.inr (Or.inr (Or.inl h))
  · exact Or.inr (Or.inr (Or.inr (Or.inl h)))
  · refine Or.inr (Or.inr (Or.inr (Or.inr ?_)))
    have h2 := Char.ofNat_toNat c
    rw [show c.toNat = 0 from h] at h2
    rw [← h2]

theorem not_mustEscape_backslash {c : Char} (h : mustEscape c = false) : c ≠ '\\' := by
  intro he
  rw [he] at h
  simp [mustEscape] at h

theorem escaped_head_eq {c1 c2 : Char} (h1 : mustEscape c1 = true) (h2 : mustEscape c2 = true)
    (he : escapeChar c1 = escapeChar c2) : c1 = c2 := by
  rcases mustEscape_cases h1 with rfl | rfl | rfl | rfl | rfl <;>
    rcases mustEscape_cases h2 with rfl | rfl | rfl | rfl | rfl <;>
      first
        | rfl
        | (exfalso; revert he; decide)

theorem flatMap_escapeChar_inj :
    ∀ l1 l2 : List Char, l1.flatMap escapeChar = l2.flatMap escapeChar → l1 = l2 := by
  intro l1
  induction l1 with
  | nil =>
    intro l2 h
    cases l2 with
    | nil => rfl
    | cons c t =>
      rw [List.flatMap_nil, List.flatMap_cons] at h
      rcases hc : escapeChar c with _ | _
      · exact absurd hc (escapeChar_ne_nil c)
      · rw [hc] at h; simp at h
  | cons c1 t1 ih =>
    intro l2 h
    cases l2 with
    | nil =>
      rw [List.flatMap_nil, List.flatMap_cons] at h
      rcases hc : escapeChar c1 with _ | _
      · exact absurd hc (escapeChar_ne_nil c1)
      · rw [hc] at h; simp at h
    | cons c2 t2 =>
      rw [List.flatMap_cons, List.flatMap_cons] at h
      rcases he1 : mustEscape c1 with _ | _ <;> rcases he2 : mustEscape c2 with _ | _
      · rw [escapeChar, if_neg (by simp [he1]), escapeChar, if_neg (by simp [he2])] at h
        simp at h
        rw [h.1, ih t2 h.2]
      · rw [escapeChar, if_neg (by simp [he1]), escapeChar, if_pos he2] at h
        simp at h
        exact absurd h.1 (not_mustEscape_backslash he1)
      · rw [escapeChar, if_pos he1, escapeChar, if_neg (by simp [he2])] at h
        simp at h
        exact absurd h.1.symm (not_mustEscape_backslash he2)
      · rw [escapeChar, if_pos he1, escapeChar, if_pos he2] at h
        simp at h
        have hcc : c1 = c2 := by
          apply escaped_head_eq he1 he2
          rw [escapeChar, if_pos he1, escapeChar, if_pos he2]
          simp [h.1, h.2.1]
        rw [hcc, ih t2 h.2.2]

theorem escapeFilter_inj {s1 s2 : String} (h : EscapeFilter s1 = EscapeFilter s2) : s1 = s2 := by
  cases s1 with
  | mk d1 =>
    cases s2 with
    | mk d2 =>
      rw [EscapeFilter, EscapeFilter] at h
      have hd : d1.flatMap escapeChar = d2.flatMap escapeChar := congrArg String.data h
      rw [flatMap_escapeChar_inj d1 d2 hd]

theorem GroupToDN_inj {gOU n1 n2 : String} (h : GroupToDN gOU n1 = GroupToDN gOU n2) :
    n1 = n2 := by
  rw [GroupToDN, GroupToDN] at h
  have hd := congrArg String.data h
  simp only [data_append, List.append_assoc] at hd
  have h2 : (EscapeFilter n1).data ++ (",".data ++ gOU.data) =
      (EscapeFilter n2).data ++ (",".data ++ gOU.data) := by
    have := List.append_cancel_left hd
    simpa [List.append_assoc] using this
  have h3 : (EscapeFilter n1).data = (EscapeFilter n2).data := List.append_cancel_right h2
  exact escapeFilter_inj (by
    cases hh1 : EscapeFilter n1 with
    | mk a =>
      cases hh2 : EscapeFilter n2 with
      | mk b =>
        rw [hh1, hh2] at h3
        simp at h3
        rw [h3])

/-! ### State evolution lemmas -/

/-- Membership after a map write. -/
theorem setExisting_mem_iff (st : List String) (dn x : String) :
    x ∈ setExisting st dn ↔ x ∈ st ∨ x = dn := by
  rw [setExisting]
  by_cases hc : st.contains dn
  · rw [if_pos hc]
    constructor
    · exact Or.inl
    · rintro (h | rfl)
      · exact h
      · exact contains_iff_mem.1 hc
  · rw [if_neg hc]
    simp

/-- A map write preserves membership. -/
theorem setExisting_mono (st : List String) (dn x : String) (h : x ∈ st) :
    x ∈ setExisting st dn := (setExisting_mem_iff st dn x).2 (Or.inl h)

/-- The written DN is a member afterwards. -/
theorem setExisting_self (st : List String) (dn : String) : dn ∈ setExisting st dn :=
  (setExisting_mem_iff st dn dn).2 (Or.inr rfl)

/-- Every configured entity is classified as an add or as a modify. -/
theorem splitAddModify_complete {α : Type} (toDN : String → String) :
    ∀ (l : List (String × α)) (ex : List String) (kv : String × α), kv ∈ l →
      kv ∈ (splitAddModify toDN l ex).1 ∨ kv ∈ (splitAddModify toDN l ex).2.1 := by
  intro l
  induction l with
  | nil => intro ex kv h; simp at h
  | cons hd rest ih =>
    intro ex kv h
    obtain ⟨uid, x⟩ := hd
    rw [splitAddModify]
    by_cases hc : ex.contains (toDN uid)
    · rw [if_pos hc]
      dsimp only
      rcases List.mem_cons.1 h with h | h
      · right; rw [h]; exact List.mem_cons_self _ _
      · rcases ih (ex.erase (toDN uid)) kv h with h2 | h2
        · exact Or.inl h2
        · exact Or.inr (List.mem_cons_of_mem _ h2)
    · rw [if_neg hc]
      dsimp only
      rcases List.mem_cons.1 h with h | h
      · left; rw [h]; exact List.mem_cons_self _ _
      · rcases ih ex kv h with h2 | h2
        · exact Or.inl (List.mem_cons_of_mem _ h2)
        · exact Or.inr h2

/-- Every observed DN either stays in the delete pool or matches some
configured entity's DN. -/
theorem splitAddModify_pool {α : Type} (toDN : String → String) :
    ∀ (l : List (String × α)) (ex : List String) (dn : String), dn ∈ ex →
      dn ∈ (splitAddModify toDN l ex).2.2 ∨ ∃ kv ∈ l, toDN kv.1 = dn := by
  intro l
  induction l with
  | nil => intro ex dn h; rw [splitAddModify]; exact Or.inl h
  | cons hd rest ih =>
    intro ex dn h
    obtain ⟨uid, x⟩ := hd
    rw [splitAddModify]
    by_cases hc : ex.contains (toDN uid)
    · rw [if_pos hc]
      dsimp only
      by_cases he : dn = toDN uid
      · exact Or.inr ⟨(uid, x), List.mem_cons_self _ _, he.symm⟩
      · have hmem : dn ∈ ex.erase (toDN uid) := (List.mem_erase_of_ne he).2 h
        rcases ih _ dn hmem with h2 | ⟨kv, hkv, hdn⟩
        · exact Or.inl h2
        · exact Or.inr ⟨kv, List.mem_cons_of_mem _ hkv, hdn⟩
    · rw [if_neg hc]
      dsimp only
      rcases ih ex dn h with h2 | ⟨kv, hkv, hdn⟩
      · exact Or.inl h2
      · exact Or.inr ⟨kv, List.mem_cons_of_mem _ hkv, hdn⟩

/-- Lookup succeeds for any listed key. -/
theorem lookup_isSome_of_mem {β : Type} :
    ∀ (l : List (String × β)) (k : String) (v : β),
      (k, v) ∈ l → (l.lookup k).isSome = true := by
  intro l
  induction l with
  | nil => intro k v h; simp at h
  | cons hd rest ih =>
    intro k v h
    obtain ⟨a, b⟩ := hd
    rw [List.lookup]
    rcases hk : k == a with _ | _
    · rcases List.mem_cons.1 h with h2 | h2
      · rw [Prod.mk.injEq] at h2
        rw [h2.1] at hk
        simp at hk
      · exact ih k v h2
    · simp

/-- The account loops only add DNs. -/
theorem runSyncAccounts_mono (toDN : String → String) :
    ∀ uids st dn, dn ∈ st → dn ∈ (runSyncAccounts toDN uids st).2 := by
  intro uids
  induction uids with
  | nil => intro st dn h; exact h
  | cons uid rest ih =>
    intro st dn h
    rw [runSyncAccounts]
    by_cases hc : st.contains (toDN uid)
    · rw [if_pos hc]; exact ih st dn h
    · rw [if_neg hc]; exact ih _ dn (setExisting_mono _ _ _ h)

/-- After an account loop, every processed entity's DN exists. -/
theorem runSyncAccounts_mem (toDN : String → String) :
    ∀ uids st uid, uid ∈ uids → toDN uid ∈ (runSyncAccounts toDN uids st).2 := by
  intro uids
  induction uids with
  | nil => intro st uid h; simp at h
  | cons u rest ih =>
    intro st uid h
    rw [runSyncAccounts]
    by_cases hc : st.contains (toDN u)
    · rw [if_pos hc]
      rcases List.mem_cons.1 h with h2 | h2
      · exact runSyncAccounts_mono toDN rest st _ (by rw [h2]; exact contains_iff_mem.1 hc)
      · exact ih st uid h2
    · rw [if_neg hc]
      rcases List.mem_cons.1 h with h2 | h2
      · exact runSyncAccounts_mono toDN rest _ _ (by rw [h2]; exact setExisting_self st (toDN u))
      · exact ih _ uid h2

/-- DNs added by an account loop are DNs of processed entities. -/
theorem runSyncAccounts_adds (toDN : String → String) :
    ∀ uids st dn, dn ∈ (runSyncAccounts toDN uids st).2 →
      dn ∈ st ∨ ∃ uid ∈ uids, toDN uid = dn := by
  intro uids
  induction uids with
  | nil => intro st dn h; exact Or.inl h
  | cons u rest ih =>
    intro st dn h
    rw [runSyncAccounts] at h
    by_cases hc : st.contains (toDN u)
    · rw [if_pos hc] at h
      rcases ih st dn h with h2 | ⟨uid, hu, he⟩
      · exact Or.inl h2
      · exact Or.inr ⟨uid, List.mem_cons_of_mem _ hu, he⟩
    · rw [if_neg hc] at h
      rcases ih _ dn h with h2 | ⟨uid, hu, he⟩
      · rcases (setExisting_mem_iff st (toDN u) dn).1 h2 with h3 | h3
        · exact Or.inl h3
        · exact Or.inr ⟨u, List.mem_cons_self _ _, h3.symm⟩
      · exact Or.inr ⟨uid, List.mem_cons_of_mem _ hu, he⟩

/-- Account loops preserve distinctness of DNs. -/
theorem runSyncAccounts_nodup (toDN : String → String) :
    ∀ uids st, st.Nodup → (runSyncAccounts toDN uids st).2.Nodup := by
  intro uids
  induction uids with
  | nil => intro st h; exact h
  | cons u rest ih =>
    intro st h
    rw [runSyncAccounts]
    by_cases hc : st.contains (toDN u)
    · rw [if_pos hc]; exact ih st h
    · rw [if_neg hc]; exact ih _ (setExisting_nodup _ _ h)

/-- When every processed DN already exists, the account loop only
modifies and leaves the state unchanged. -/
theorem runSyncAccounts_all_present (toDN : String → String) :
    ∀ uids st, (∀ uid ∈ uids, toDN uid ∈ st) →
      (runSyncAccounts toDN uids st).2 = st ∧
      ∀ op ∈ (runSyncAccounts toDN uids st).1, op.opType = "modify" := by
  intro uids
  induction uids with
  | nil => intro st _; exact ⟨rfl, by simp [runSyncAccounts]⟩
  | cons u rest ih =>
    intro st hall
    have hc : st.contains (toDN u) = true :=
      contains_iff_mem.2 (hall u (List.mem_cons_self _ _))
    rw [runSyncAccounts, if_pos hc]
    obtain ⟨h1, h2⟩ := ih st (fun uid hu => hall uid (List.mem_cons_of_mem _ hu))
    refine ⟨h1, ?_⟩
    intro op hop
    rcases List.mem_cons.1 hop with h | h
    · rw [h]; rfl
    · exact h2 op h

/-- The delete loop only removes DNs. -/
theorem runDeletes_state_subset :
    ∀ dns st dn, dn ∈ (runDeletes dns st).2 → dn ∈ st := by
  intro dns
  induction dns with
  | nil => intro st dn h; exact h
  | cons d rest ih =>
    intro st dn h
    rw [runDeletes] at h
    exact List.erase_subset _ _ (ih _ dn h)

/-- The delete loop keeps DNs it is not asked to delete. -/
theorem runDeletes_preserve :
    ∀ dns st dn, dn ∈ st → (∀ d ∈ dns, d ≠ dn) → dn ∈ (runDeletes dns st).2 := by
  intro dns
  induction dns with
  | nil => intro st dn h _; exact h
  | cons d rest ih =>
    intro st dn h hne
    rw [runDeletes]
    refine ih _ dn ?_ (fun d2 hd2 => hne d2 (List.mem_cons_of_mem _ hd2))
    exact (List.mem_erase_of_ne (fun he => hne d (List.mem_cons_self _ _) he.symm)).2 h

/-- On distinct states the delete loop removes every listed DN. -/
theorem runDeletes_removes :
    ∀ dns st dn, st.Nodup → dn ∈ dns → dn ∉ (runDeletes dns st).2 := by
  intro dns
  induction dns with
  | nil => intro st dn _ h; simp at h
  | cons d rest ih =>
    intro st dn hnd h
    rw [runDeletes]
    rcases List.mem_cons.1 h with h2 | h2
    · intro hcon
      have := runDeletes_state_subset rest (st.erase d) dn hcon
      rw [h2] at this
      exact hnd.not_mem_erase this
    · exact ih _ dn (hnd.erase _) h2

/-- The delete loop preserves distinctness. -/
theorem runDeletes_nodup :
    ∀ dns st, st.Nodup → (runDeletes dns st).2.Nodup := by
  intro dns
  induction dns with
  | nil => intro st h; exact h
  | cons d rest ih =>
    intro st h
    rw [runDeletes]
    exact ih _ (h.erase _)

/-! ### Group-phase state lemmas -/

/-- Looked-up values are entries of the list. -/
theorem mem_of_lookup {β : Type} :
    ∀ (l : List (String × β)) (k : String) (v : β), l.lookup k = some v → (k, v) ∈ l := by
  intro l
  induction l with
  | nil => intro k v h; simp [List.lookup] at h
  | cons hd rest ih =>
    intro k v h
    obtain ⟨a, b⟩ := hd
    rw [List.lookup] at h
    rcases hk : k == a with _ | _
    · rw [hk] at h
      exact List.mem_cons_of_mem _ (ih k v h)
    · rw [hk] at h
      simp at h
      rw [eq_of_beq hk, h]
      exact List.mem_cons_self _ _

/-- The mock `SyncGroup` adds only the DN of a group with members. -/
theorem syncGroupMock_state_mem (cfg : LDAPEnforcerConfig) (st : List String) (name : String) :
    ∀ x ∈ (syncGroupMock cfg st name).2,
      x ∈ st ∨ (x = GroupToDN cfg.enforcedGroupOU name ∧ getGroupMembersRun cfg name ≠ []) := by
  intro x hx
  rw [syncGroupMock] at hx
  by_cases h0 : (getGroupMembersRun cfg name).length == 0
  · rw [if_pos h0] at hx
    by_cases hc : st.contains (GroupToDN cfg.enforcedGroupOU name)
    · rw [if_pos hc] at hx
      exact Or.inl (List.erase_subset _ _ hx)
    · rw [if_neg hc] at hx
      exact Or.inl hx
  · rw [if_neg h0] at hx
    have hne : getGroupMembersRun cfg name ≠ [] := by
      intro he
      rw [he] at h0
      simp at h0
    by_cases hc : st.contains (GroupToDN cfg.enforcedGroupOU name)
    · rw [if_pos hc] at hx
      exact Or.inl hx
    · rw [if_neg hc] at hx
      rcases (setExisting_mem_iff st _ x).1 hx with h | h
      · exact Or.inl h
      · exact Or.inr ⟨h, hne⟩

/-- The mock `SyncGroup` keeps any DN that is not the empty-resolving
group's own DN. -/
theorem syncGroupMock_preserve (cfg : LDAPEnforcerConfig) (st : List String) (name : String)
    (x : String) (hx : x ∈ st)
    (hne : x = GroupToDN cfg.enforcedGroupOU name → getGroupMembersRun cfg name ≠ []) :
    x ∈ (syncGroupMock cfg st name).2 := by
  rw [syncGroupMock]
  by_cases h0 : (getGroupMembersRun cfg name).length == 0
  · rw [if_pos h0]
    have hempty : getGroupMembersRun cfg name = [] := by
      have : (getGroupMembersRun cfg name).length = 0 := beq_iff_eq.mp h0
      exact List.eq_nil_of_length_eq_zero this
    by_cases hc : st.contains (GroupToDN cfg.enforcedGroupOU name)
    · rw [if_pos hc]
      refine (List.mem_erase_of_ne ?_).2 hx
      intro he
      exact hne he hempty
    · rw [if_neg hc]
      exact hx
  · rw [if_neg h0]
    by_cases hc : st.contains (GroupToDN cfg.enforcedGroupOU name)
    · rw [if_pos hc]; exact hx
    · rw [if_neg hc]; exact setExisting_mono _ _ _ hx

/-- After the mock `SyncGroup` of a group with members, its DN exists. -/
theorem syncGroupMock_ensure (cfg : LDAPEnforcerConfig) (st : List String) (name : String)
    (hne : getGroupMembersRun cfg name ≠ []) :
    GroupToDN cfg.enforcedGroupOU name ∈ (syncGroupMock cfg st name).2 := by
  rw [syncGroupMock]
  have h0 : ((getGroupMembersRun cfg name).length == 0) = false := by
    rcases hq : (getGroupMembersRun cfg name).length == 0 with _ | _
    · rfl
    · exact absurd (List.eq_nil_of_length_eq_zero (beq_iff_eq.mp hq)) hne
  rw [h0]
  simp only [Bool.false_eq_true, if_false]
  by_cases hc : st.contains (GroupToDN cfg.enforcedGroupOU name)
  · rw [if_pos hc]; exact contains_iff_mem.1 hc
  · rw [if_neg hc]; exact setExisting_self _ _

/-- After the mock `SyncGroup` of an empty-resolving group, its DN is
gone. -/
theorem syncGroupMock_empty_removes (cfg : LDAPEnforcerConfig) (st : List String)
    (name : String) (hnd : st.Nodup) (hempty : getGroupMembersRun cfg name = []) :
    GroupToDN cfg.enforcedGroupOU name ∉ (syncGroupMock cfg st name).2 := by
  rw [syncGroupMock]
  rw [hempty]
  simp only [List.length_nil]
  by_cases hc : st.contains (GroupToDN cfg.enforcedGroupOU name)
  · rw [if_pos (by simp), if_pos hc]
    exact hnd.not_mem_erase
  · rw [if_pos (by simp), if_neg hc]
    intro hmem
    exact hc (contains_iff_mem.2 hmem)

/-- The mock `SyncGroup` preserves distinctness. -/
theorem syncGroupMock_nodup (cfg : LDAPEnforcerConfig) (st : List String) (name : String)
    (hnd : st.Nodup) : (syncGroupMock cfg st name).2.Nodup := by
  rw [syncGroupMock]
  by_cases h0 : (getGroupMembersRun cfg name).length == 0
  · rw [if_pos h0]
    by_cases hc : st.contains (GroupToDN cfg.enforcedGroupOU name)
    · rw [if_pos hc]; exact hnd.erase _
    · rw [if_neg hc]; exact hnd
  · rw [if_neg h0]
    by_cases hc : st.contains (GroupToDN cfg.enforcedGroupOU name)
    · rw [if_pos hc]; exact hnd
    · rw [if_neg hc]; exact setExisting_nodup _ _ hnd

/-- On a nonempty group whose DN exists, the mock `SyncGroup` is exactly
one modify that leaves the state unchanged. -/
theorem syncGroupMock_modify (cfg : LDAPEnforcerConfig) (st : List String) (name : String)
    (hne : getGroupMembersRun cfg name ≠ [])
    (hmem : GroupToDN cfg.enforcedGroupOU name ∈ st) :
    syncGroupMock cfg st name =
      ([mkOp "modify" (GroupToDN cfg.enforcedGroupOU name)], st) := by
  rw [syncGroupMock]
  have h0 : ((getGroupMembersRun cfg name).length == 0) = false := by
    rcases hq : (getGroupMembersRun cfg name).length == 0 with _ | _
    · rfl
    · exact absurd (List.eq_nil_of_length_eq_zero (beq_iff_eq.mp hq)) hne
  rw [h0]
  simp only [Bool.false_eq_true, if_false]
  rw [if_pos (contains_iff_mem.2 hmem)]

/-- On an empty group whose DN is absent, the mock `SyncGroup` does
nothing. -/
theorem syncGroupMock_skip (cfg : LDAPEnforcerConfig) (st : List String) (name : String)
    (hempty : getGroupMembersRun cfg name = [])
    (hmem : GroupToDN cfg.enforcedGroupOU name ∉ st) :
    syncGroupMock cfg st name = ([], st) := by
  rw [syncGroupMock, hempty]
  simp only [List.length_nil]
  rw [if_pos (by simp), if_neg (fun hc => hmem (contains_iff_mem.1 hc))]

/-- DNs added during the group phase are DNs of groups, from the add or
modify set, that resolve to at least one member. -/
theorem runGroupPhase_state_mem (cfg : LDAPEnforcerConfig)
    (toAdd toMod : List (String × Group)) :
    ∀ order st, ∀ x ∈ (runGroupPhase cfg toAdd toMod order st).2,
      x ∈ st ∨ ∃ n, (n ∈ toAdd.map Prod.fst ∨ n ∈ toMod.map Prod.fst) ∧
        x = GroupToDN cfg.enforcedGroupOU n ∧ getGroupMembersRun cfg n ≠ [] := by
  intro order
  induction order with
  | nil => intro st x hx; exact Or.inl hx
  | cons name rest ih =>
    intro st x hx
    rw [runGroupPhase] at hx
    cases hla : toAdd.lookup name with
    | some g =>
      rw [hla] at hx
      dsimp only at hx
      rcases ih _ x hx with h | h
      · rcases syncGroupMock_state_mem cfg st name x h with h2 | ⟨h2, h3⟩
        · exact Or.inl h2
        · exact Or.inr ⟨name, Or.inl (mem_keys_of_lookup toAdd name g hla), h2, h3⟩
      · exact Or.inr h
    | none =>
      rw [hla] at hx
      dsimp only at hx
      cases hlm : toMod.lookup name with
      | some g =>
        rw [hlm] at hx
        dsimp only at hx
        rcases ih _ x hx with h | h
        · rcases syncGroupMock_state_mem cfg st name x h with h2 | ⟨h2, h3⟩
          · exact Or.inl h2
          · exact Or.inr ⟨name, Or.inr (mem_keys_of_lookup toMod name g hlm), h2, h3⟩
        · exact Or.inr h
      | none =>
        rw [hlm] at hx
        exact ih st x hx

/-- The group phase keeps every DN outside the group OU. -/
theorem runGroupPhase_preserve_other (cfg : LDAPEnforcerConfig)
    (toAdd toMod : List (String × Group)) (hgne : cfg.enforcedGroupOU ≠ "") :
    ∀ order st x, x ∈ st → isDNInOU x cfg.enforcedGroupOU = false →
      x ∈ (runGroupPhase cfg toAdd toMod order st).2 := by
  intro order
  induction order with
  | nil => intro st x hx _; exact hx
  | cons name rest ih =>
    intro st x hx hou
    rw [runGroupPhase]
    have hstep : x ∈ (syncGroupMock cfg st name).2 := by
      refine syncGroupMock_preserve cfg st name x hx ?_
      intro he
      rw [he] at hou
      rw [isDNInOU_GroupToDN _ _ hgne] at hou
      simp at hou
    cases hla : toAdd.lookup name with
    | some g => exact ih _ x hstep hou
    | none =>
      dsimp only
      cases hlm : toMod.lookup name with
      | some g => exact ih _ x hstep hou
      | none => exact ih st x hx hou

/-- The group phase keeps the DN of any group that resolves to at least
one member. -/
theorem runGroupPhase_preserve_nonempty (cfg : LDAPEnforcerConfig)
    (toAdd toMod : List (String × Group)) (n0 : String)
    (hne : getGroupMembersRun cfg n0 ≠ []) :
    ∀ order st, GroupToDN cfg.enforcedGroupOU n0 ∈ st →
      GroupToDN cfg.enforcedGroupOU n0 ∈ (runGroupPhase cfg toAdd toMod order st).2 := by
  intro order
  induction order with
  | nil => intro st hx; exact hx
  | cons name rest ih =>
    intro st hx
    rw [runGroupPhase]
    have hstep : GroupToDN cfg.enforcedGroupOU n0 ∈ (syncGroupMock cfg st name).2 := by
      refine syncGroupMock_preserve cfg st name _ hx ?_
      intro he
      rw [GroupToDN_inj he] at hne
      exact hne
    cases hla : toAdd.lookup name with
    | some g => exact ih _ hstep
    | none =>
      dsimp only
      cases hlm : toMod.lookup name with
      | some g => exact ih _ hstep
      | none => exact ih st hx

/-- The group phase never introduces the DN of an empty-resolving
group. -/
theorem runGroupPhase_no_add_empty (cfg : LDAPEnforcerConfig)
    (toAdd toMod : List (String × Group)) (n0 : String)
    (hempty : getGroupMembersRun cfg n0 = []) :
    ∀ order st, GroupToDN cfg.enforcedGroupOU n0 ∉ st →
      GroupToDN cfg.enforcedGroupOU n0 ∉ (runGroupPhase cfg toAdd toMod order st).2 := by
  intro order st hx hcon
  rcases runGroupPhase_state_mem cfg toAdd toMod order st _ hcon with h | ⟨n, _, he, hne⟩
  · exact hx h
  · rw [GroupToDN_inj he] at hempty
    exact hne hempty

/-- The group phase preserves distinctness. -/
theorem runGroupPhase_nodup (cfg : LDAPEnforcerConfig)
    (toAdd toMod : List (String × Group)) :
    ∀ order st, st.Nodup → (runGroupPhase cfg toAdd toMod order st).2.Nodup := by
  intro order
  induction order with
  | nil => intro st h; exact h
  | cons name rest ih =>
    intro st h
    rw [runGroupPhase]
    cases hla : toAdd.lookup name with
    | some g => exact ih _ (syncGroupMock_nodup cfg st name h)
    | none =>
      dsimp only
      cases hlm : toMod.lookup name with
      | some g => exact ih _ (syncGroupMock_nodup cfg st name h)
      | none => exact ih st h

/-- After the group phase, every processed group with members has its
DN in the state. -/
theorem runGroupPhase_ensure (cfg : LDAPEnforcerConfig)
    (toAdd toMod : List (String × Group)) (n : String)
    (hne : getGroupMembersRun cfg n ≠ [])
    (hfound : (toAdd.lookup n).isSome = true ∨ (toMod.lookup n).isSome = true) :
    ∀ order st, n ∈ order →
      GroupToDN cfg.enforcedGroupOU n ∈ (runGroupPhase cfg toAdd toMod order st).2 := by
  intro order
  induction order with
  | nil => intro st h; simp at h
  | cons name rest ih =>
    intro st hmem
    rw [runGroupPhase]
    rcases List.mem_cons.1 hmem with he | hr
    · subst he
      cases hla : toAdd.lookup n with
      | some g =>
        dsimp only
        exact runGroupPhase_preserve_nonempty cfg toAdd toMod n hne rest _
          (syncGroupMock_ensure cfg st n hne)
      | none =>
        dsimp only
        cases hlm : toMod.lookup n with
        | some g =>
          dsimp only
          exact runGroupPhase_preserve_nonempty cfg toAdd toMod n hne rest _
            (syncGroupMock_ensure cfg st n hne)
        | none =>
          rcases hfound with hf | hf
          · rw [hla] at hf; simp at hf
          · rw [hlm] at hf; simp at hf
    · cases hla : toAdd.lookup name with
      | some g => exact ih _ hr
      | none =>
        dsimp only
        cases hlm : toMod.lookup name with
        | some g => exact ih _ hr
        | none => exact ih st hr

/-- After the group phase, every processed group that resolves empty has
no DN in the state. -/
theorem runGroupPhase_empty_removed (cfg : LDAPEnforcerConfig)
    (toAdd toMod : List (String × Group)) (n : String)
    (hempty : getGroupMembersRun cfg n = [])
    (hfound : (toAdd.lookup n).isSome = true ∨ (toMod.lookup n).isSome = true) :
    ∀ order st, st.Nodup → n ∈ order →
      GroupToDN cfg.enforcedGroupOU n ∉ (runGroupPhase cfg toAdd toMod order st).2 := by
  intro order
  induction order with
  | nil => intro st _ h; simp at h
  | cons name rest ih =>
    intro st hnd hmem
    rw [runGroupPhase]
    rcases List.mem_cons.1 hmem with he | hr
    · subst he
      cases hla : toAdd.lookup n with
      | some g =>
        dsimp only
        exact runGroupPhase_no_add_empty cfg toAdd toMod n hempty rest _
          (syncGroupMock_empty_removes cfg st n hnd hempty)
      | none =>
        dsimp only
        cases hlm : toMod.lookup n with
        | some g =>
          dsimp only
          exact runGroupPhase_no_add_empty cfg toAdd toMod n hempty rest _
            (syncGroupMock_empty_removes cfg st n hnd hempty)
        | none =>
          rcases hfound with hf | hf
          · rw [hla] at hf; simp at hf
          · rw [hlm] at hf; simp at hf
    · cases hla : toAdd.lookup name with
      | some g => exact ih _ (syncGroupMock_nodup cfg st name hnd) hr
      | none =>
        dsimp only
        cases hlm : toMod.lookup name with
        | some g => exact ih _ (syncGroupMock_nodup cfg st name hnd) hr
        | none => exact ih st hnd hr

/-- When every processed nonempty group's DN is present and every
processed empty group's DN is absent, the group phase performs only
modifies and leaves the state unchanged. -/
theorem runGroupPhase_no_change (cfg : LDAPEnforcerConfig)
    (toAdd toMod : List (String × Group))
    (hA : ∀ kv ∈ toAdd, kv.1 ∈ cfg.group.map Prod.fst)
    (hM : ∀ kv ∈ toMod, kv.1 ∈ cfg.group.map Prod.fst) :
    ∀ order st,
      (∀ n ∈ order, n ∈ cfg.group.map Prod.fst → getGroupMembersRun cfg n = [] →
        GroupToDN cfg.enforcedGroupOU n ∉ st) →
      (∀ n ∈ order, n ∈ cfg.group.map Prod.fst → getGroupMembersRun cfg n ≠ [] →
        GroupToDN cfg.enforcedGroupOU n ∈ st) →
      (runGroupPhase cfg toAdd toMod order st).2 = st ∧
      ∀ op ∈ (runGroupPhase cfg toAdd toMod order st).1, op.opType = "modify" := by
  intro order
  induction order with
  | nil => intro st _ _; exact ⟨rfl, by simp [runGroupPhase]⟩
  | cons name rest ih =>
    intro st hEmpty hNonempty
    rw [runGroupPhase]
    have hrest := ih st
      (fun n hn => hEmpty n (List.mem_cons_of_mem _ hn))
      (fun n hn => hNonempty n (List.mem_cons_of_mem _ hn))
    have hstep : ∀ g0 : Group, (toAdd.lookup name = some g0 ∨ toMod.lookup name = some g0) →
        syncGroupMock cfg st name = ([], st) ∨
        syncGroupMock cfg st name =
          ([mkOp "modify" (GroupToDN cfg.enforcedGroupOU name)], st) := by
      intro g0 hl
      have hkey : name ∈ cfg.group.map Prod.fst := by
        rcases hl with hl | hl
        · exact hA _ (mem_of_lookup toAdd name g0 hl)
        · exact hM _ (mem_of_lookup toMod name g0 hl)
      by_cases hm : getGroupMembersRun cfg name = []
      · exact Or.inl (syncGroupMock_skip cfg st name hm
          (hEmpty name (List.mem_cons_self _ _) hkey hm))
      · exact Or.inr (syncGroupMock_modify cfg st name hm
          (hNonempty name (List.mem_cons_self _ _) hkey hm))
    cases hla : toAdd.lookup name with
    | some g =>
      dsimp only
      rcases hstep g (Or.inl hla) with hs | hs <;> rw [hs] <;>
        refine ⟨hrest.1, ?_⟩ <;> intro op hop <;> dsimp only at hop
      · exact hrest.2 op (by simpa using hop)
      · rcases List.mem_cons.1 (by simpa using hop) with h | h
        · rw [h]; rfl
        · exact hrest.2 op h
    | none =>
      dsimp only
      cases hlm : toMod.lookup name with
      | some g =>
        dsimp only
        rcases hstep g (Or.inr hlm) with hs | hs <;> rw [hs] <;>
          refine ⟨hrest.1, ?_⟩ <;> intro op hop <;> dsimp only at hop
        · exact hrest.2 op (by simpa using hop)
        · rcases List.mem_cons.1 (by simpa using hop) with h | h
          · rw [h]; rfl
          · exact hrest.2 op h
      | none => exact hrest

/-! ### Separation glue facts -/

/-- OU separation is symmetric. -/
theorem ouSeparated_symm {a b : String} (h : ouSeparated a b = true) :
    ouSeparated b a = true := by
  rw [ouSeparated] at h ⊢
  rw [Bool.and_eq_true] at h ⊢
  exact ⟨h.2, h.1⟩

/-- Separated OUs are nonempty. -/
theorem ouSeparated_ne {a b : String} (h : ouSeparated a b = true) : a ≠ "" ∧ b ≠ "" := by
  rw [ouSeparated, Bool.and_eq_true] at h
  constructor
  · intro he
    rw [he] at h
    have : ("" : String).data.isSuffixOf b.data = true :=
      List.isSuffixOf_iff_suffix.2 List.nil_suffix
    rw [this] at h
    simp at h
  · intro he
    rw [he] at h
    have : ("" : String).data.isSuffixOf a.data = true :=
      List.isSuffixOf_iff_suffix.2 List.nil_suffix
    rw [this] at h
    simp at h

/-- No OU lies in itself. -/
theorem isDNInOU_self_false (ou : String) : isDNInOU ou ou = false := by
  rw [isDNInOU]
  have : decide (ou.length < ou.length) = false := by simp
  rw [this]
  simp

/-- A separated OU does not lie in the other OU. -/
theorem isDNInOU_sep_false {a b : String} (hsep : ouSeparated a b = true) :
    isDNInOU a b = false := by
  rcases hq : isDNInOU a b with _ | _
  · rfl
  · rw [isDNInOU] at hq
    simp only [Bool.and_eq_true] at hq
    rw [ouSeparated, Bool.and_eq_true] at hsep
    rw [hq.2] at hsep
    simp at hsep

/-- A DN in one of two separated OUs is not in the other. -/
theorem isDNInOU_false_of_other {dn a b : String} (hsep : ouSeparated a b = true)
    (h : isDNInOU dn a = true) : isDNInOU dn b = false := by
  rcases hq : isDNInOU dn b with _ | _
  · rfl
  · exact absurd ⟨h, hq⟩ (not_isDNInOU_both hsep dn)

/-- The delete pool is part of the observed pool. -/
theorem splitAddModify_remaining_sub {α : Type} (toDN : String → String) :
    ∀ (l : List (String × α)) (ex : List String),
      ∀ dn ∈ (splitAddModify toDN l ex).2.2, dn ∈ ex := by
  intro l
  induction l with
  | nil => intro ex dn h; exact h
  | cons hd rest ih =>
    intro ex dn h
    obtain ⟨uid, x⟩ := hd
    rw [splitAddModify] at h
    by_cases hc : ex.contains (toDN uid)
    · rw [if_pos hc] at h
      exact List.erase_subset _ _ (ih _ dn h)
    · rw [if_neg hc] at h
      exact ih ex dn h

/-- DNs of the delete pool of an OU differ from any DN outside that
OU. -/
theorem remaining_ne {α : Type} (toDN : String → String) (l : List (String × α))
    (st : List String) (ou x : String) (hx : isDNInOU x ou = false) :
    ∀ d ∈ (splitAddModify toDN l (getExistingEntries st ou)).2.2, d ≠ x := by
  intro d hd he
  have h1 : d ∈ getExistingEntries st ou := splitAddModify_remaining_sub toDN l _ d hd
  rw [getExistingEntries] at h1
  have h2 := (List.mem_filter.1 h1).2
  rw [he, hx] at h2
  simp at h2

/-- Writing an already present DN is a no-op. -/
theorem setExisting_eq_of_mem (st : List String) (dn : String) (h : dn ∈ st) :
    setExisting st dn = st := by
  rw [setExisting, if_pos (contains_iff_mem.2 h)]


/-! ### Idempotence of the mock sync (claim C3) -/

/-- A sync pass preserves distinctness of the observed DNs. -/
theorem syncAll_state_nodup (cfg : LDAPEnforcerConfig) (st0 : List String) (hnd : st0.Nodup) :
    (syncAllMock cfg st0).2.Nodup := by
  simp only [syncAllMock]
  apply runDeletes_nodup
  apply runDeletes_nodup
  apply runDeletes_nodup
  apply runGroupPhase_nodup
  apply runSyncAccounts_nodup
  apply runSyncAccounts_nodup
  apply runSyncAccounts_nodup
  apply runSyncAccounts_nodup
  exact setExisting_nodup _ _ (setExisting_nodup _ _ (setExisting_nodup _ _ hnd))

/-- Every present DN lying in an OU is observed for that OU. -/
theorem mem_getExistingEntries (st : List String) (ou x : String)
    (h1 : x ∈ st) (h2 : isDNInOU x ou = true) : x ∈ getExistingEntries st ou := by
  rw [getExistingEntries]
  exact List.mem_filter.2 ⟨h1, h2⟩

/-- The observed pool of an OU has no duplicates when the state has none. -/
theorem getExistingEntries_nodup (st : List String) (ou : String) (h : st.Nodup) :
    (getExistingEntries st ou).Nodup := by
  rw [getExistingEntries]
  exact h.filter _

/-- Observed DNs are present and lie in the OU. -/
theorem mem_of_getExistingEntries (st : List String) (ou x : String)
    (h : x ∈ getExistingEntries st ou) : x ∈ st ∧ isDNInOU x ou = true := by
  rw [getExistingEntries] at h
  exact ⟨(List.mem_filter.1 h).1, (List.mem_filter.1 h).2⟩

/-- Every DN present after a sync pass is one of the managed OUs, a
configured entity's DN, or an originally observed DN lying in none of
the managed OUs (everything else was classified for deletion and
deleted). -/
theorem syncAll_state_cases (cfg : LDAPEnforcerConfig) (st0 : List String) (hnd : st0.Nodup) :
    ∀ x ∈ (syncAllMock cfg st0).2,
      x = cfg.enforcedPeopleOU ∨ x = cfg.enforcedSvcAcctOU ∨ x = cfg.enforcedGroupOU ∨
      (∃ kv ∈ cfg.person, PersonToDN cfg.enforcedPeopleOU kv.1 = x) ∨
      (∃ kv ∈ cfg.svcacct, SvcAcctToDN cfg.enforcedSvcAcctOU kv.1 = x) ∨
      (∃ kv ∈ cfg.group, GroupToDN cfg.enforcedGroupOU kv.1 = x) ∨
      (x ∈ st0 ∧ isDNInOU x cfg.enforcedPeopleOU = false ∧
        isDNInOU x cfg.enforcedSvcAcctOU = false ∧ isDNInOU x cfg.enforcedGroupOU = false) := by
  intro x hx
  simp only [syncAllMock] at hx
  set stI := setExisting (setExisting (setExisting st0 cfg.enforcedPeopleOU)
    cfg.enforcedSvcAcctOU) cfg.enforcedGroupOU with hstI
  have hndI : stI.Nodup := by
    rw [hstI]
    exact setExisting_nodup _ _ (setExisting_nodup _ _ (setExisting_nodup _ _ hnd))
  set spP := splitAddModify (PersonToDN cfg.enforcedPeopleOU) cfg.person
    (getExistingEntries stI cfg.enforcedPeopleOU) with hspP
  set spS := splitAddModify (SvcAcctToDN cfg.enforcedSvcAcctOU) cfg.svcacct
    (getExistingEntries stI cfg.enforcedSvcAcctOU) with hspS
  set spG := splitAddModify (GroupToDN cfg.enforcedGroupOU) cfg.group
    (getExistingEntries stI cfg.enforcedGroupOU) with hspG
  set ord := topologicalSortGroups (cfg.group.map (fun kv => kv.1)) (collectDeps cfg) with hord
  set rPA := runSyncAccounts (PersonToDN cfg.enforcedPeopleOU)
    (spP.1.map (fun kv => kv.1)) stI with hrPA
  set rPM := runSyncAccounts (PersonToDN cfg.enforcedPeopleOU)
    (spP.2.1.map (fun kv => kv.1)) rPA.2 with hrPM
  set rSA := runSyncAccounts (SvcAcctToDN cfg.enforcedSvcAcctOU)
    (spS.1.map (fun kv => kv.1)) rPM.2 with hrSA
  set rSM := runSyncAccounts (SvcAcctToDN cfg.enforcedSvcAcctOU)
    (spS.2.1.map (fun kv => kv.1)) rSA.2 with hrSM
  set rG := runGroupPhase cfg spG.1 spG.2.1 ord rSM.2 with hrG
  have hndSM : rSM.2.Nodup := by
    rw [hrSM]
    refine runSyncAccounts_nodup _ _ _ ?_
    rw [hrSA]
    refine runSyncAccounts_nodup _ _ _ ?_
    rw [hrPM]
    refine runSyncAccounts_nodup _ _ _ ?_
    rw [hrPA]
    exact runSyncAccounts_nodup _ _ _ hndI
  have hndG : rG.2.Nodup := by
    rw [hrG]
    exact runGroupPhase_nodup _ _ _ _ _ hndSM
  have hndDG : (runDeletes spG.2.2 rG.2).2.Nodup := runDeletes_nodup _ _ hndG
  have hndDP : (runDeletes spP.2.2 (runDeletes spG.2.2 rG.2).2).2.Nodup :=
    runDeletes_nodup _ _ hndDG
  have hxG : x ∈ rG.2 :=
    runDeletes_state_subset _ _ _
      (runDeletes_state_subset _ _ _ (runDeletes_state_subset _ _ _ hx))
  have hxDG : x ∈ (runDeletes spG.2.2 rG.2).2 :=
    runDeletes_state_subset _ _ _ (runDeletes_state_subset _ _ _ hx)
  have hxDP : x ∈ (runDeletes spP.2.2 (runDeletes spG.2.2 rG.2).2).2 :=
    runDeletes_state_subset _ _ _ hx
  rw [hrG] at hxG
  rcases runGroupPhase_state_mem cfg spG.1 spG.2.1 ord rSM.2 x hxG with hxSM | ⟨n, hn, hxe, hne⟩
  · -- survived from before the group phase: unravel the account loops
    rw [hrSM] at hxSM
    rcases runSyncAccounts_adds _ _ _ _ hxSM with hxSA | ⟨uid, hu, he⟩
    · rw [hrSA] at hxSA
      rcases runSyncAccounts_adds _ _ _ _ hxSA with hxPM | ⟨uid, hu, he⟩
      · rw [hrPM] at hxPM
        rcases runSyncAccounts_adds _ _ _ _ hxPM with hxPA | ⟨uid, hu, he⟩
        · rw [hrPA] at hxPA
          rcases runSyncAccounts_adds _ _ _ _ hxPA with hxI | ⟨uid, hu, he⟩
          · -- in the initial snapshot state
            rw [hstI] at hxI
            rcases (setExisting_mem_iff _ _ _).1 hxI with hxI | hxg
            rotate_left
            · exact Or.inr (Or.inr (Or.inl hxg))
            rcases (setExisting_mem_iff _ _ _).1 hxI with hxI | hxs
            rotate_left
            · exact Or.inr (Or.inl hxs)
            rcases (setExisting_mem_iff _ _ _).1 hxI with hx0 | hxp
            rotate_left
            · exact Or.inl hxp
            -- genuinely from st0: case on the OUs it lies in
            by_cases hP : isDNInOU x cfg.enforcedPeopleOU = true
            · have hxex : x ∈ getExistingEntries stI cfg.enforcedPeopleOU :=
                mem_getExistingEntries _ _ _
                  (by
                    rw [hstI]
                    exact setExisting_mono _ _ _ (setExisting_mono _ _ _
                      (setExisting_mono _ _ _ hx0))) hP
              rcases splitAddModify_pool (PersonToDN cfg.enforcedPeopleOU) cfg.person _ x hxex
                with hpool | ⟨kv, hkv, hdn⟩
              · rw [← hspP] at hpool
                exact absurd hxDP (runDeletes_removes _ _ _ hndDG hpool)
              · exact Or.inr (Or.inr (Or.inr (Or.inl ⟨kv, hkv, hdn⟩)))
            · by_cases hS : isDNInOU x cfg.enforcedSvcAcctOU = true
              · have hxex : x ∈ getExistingEntries stI cfg.enforcedSvcAcctOU :=
                  mem_getExistingEntries _ _ _
                    (by
                      rw [hstI]
                      exact setExisting_mono _ _ _ (setExisting_mono _ _ _
                        (setExisting_mono _ _ _ hx0))) hS
                rcases splitAddModify_pool (SvcAcctToDN cfg.enforcedSvcAcctOU) cfg.svcacct _ x
                  hxex with hpool | ⟨kv, hkv, hdn⟩
                · rw [← hspS] at hpool
                  exact absurd hx (runDeletes_removes _ _ _ hndDP hpool)
                · exact Or.inr (Or.inr (Or.inr (Or.inr (Or.inl ⟨kv, hkv, hdn⟩))))
              · by_cases hG : isDNInOU x cfg.enforcedGroupOU = true
                · have hxex : x ∈ getExistingEntries stI cfg.enforcedGroupOU :=
                    mem_getExistingEntries _ _ _
                      (by
                        rw [hstI]
                        exact setExisting_mono _ _ _ (setExisting_mono _ _ _
                          (setExisting_mono _ _ _ hx0))) hG
                  rcases splitAddModify_pool (GroupToDN cfg.enforcedGroupOU) cfg.group _ x
                    hxex with hpool | ⟨kv, hkv, hdn⟩
                  · rw [← hspG] at hpool
                    exact absurd hxDG (runDeletes_removes _ _ _ hndG hpool)
                  · exact Or.inr (Or.inr (Or.inr (Or.inr (Or.inr (Or.inl ⟨kv, hkv, hdn⟩)))))
                · simp only [Bool.not_eq_true] at hP hS hG
                  exact Or.inr (Or.inr (Or.inr (Or.inr (Or.inr (Or.inr ⟨hx0, hP, hS, hG⟩)))))
          · -- created by the person-add loop
            rw [hspP] at hu
            rcases List.mem_map.1 hu with ⟨kv, hkv, hkv1⟩
            have hkvc : kv ∈ cfg.person := splitAddModify_addmod_sub _ _ _ kv (Or.inl hkv)
            refine Or.inr (Or.inr (Or.inr (Or.inl ⟨kv, hkvc, ?_⟩)))
            rw [hkv1]
            exact he
        · -- person-modify loop
          rw [hspP] at hu
          rcases List.mem_map.1 hu with ⟨kv, hkv, hkv1⟩
          have hkvc : kv ∈ cfg.person := splitAddModify_addmod_sub _ _ _ kv (Or.inr hkv)
          refine Or.inr (Or.inr (Or.inr (Or.inl ⟨kv, hkvc, ?_⟩)))
          rw [hkv1]
          exact he
      · -- svcacct-add loop
        rw [hspS] at hu
        rcases List.mem_map.1 hu with ⟨kv, hkv, hkv1⟩
        have hkvc : kv ∈ cfg.svcacct := splitAddModify_addmod_sub _ _ _ kv (Or.inl hkv)
        refine Or.inr (Or.inr (Or.inr (Or.inr (Or.inl ⟨kv, hkvc, ?_⟩))))
        rw [hkv1]
        exact he
    · -- svcacct-modify loop
      rw [hspS] at hu
      rcases List.mem_map.1 hu with ⟨kv, hkv, hkv1⟩
      have hkvc : kv ∈ cfg.svcacct := splitAddModify_addmod_sub _ _ _ kv (Or.inr hkv)
      refine Or.inr (Or.inr (Or.inr (Or.inr (Or.inl ⟨kv, hkvc, ?_⟩))))
      rw [hkv1]
      exact he
  · -- added by the group phase
    rcases hn with hn | hn
    · rw [hspG] at hn
      rcases List.mem_map.1 hn with ⟨kv, hkv, hkv1⟩
      have hkvc : kv ∈ cfg.group := splitAddModify_addmod_sub _ _ _ kv (Or.inl hkv)
      refine Or.inr (Or.inr (Or.inr (Or.inr (Or.inr (Or.inl ⟨kv, hkvc, ?_⟩)))))
      rw [hkv1, hxe]
    · rw [hspG] at hn
      rcases List.mem_map.1 hn with ⟨kv, hkv, hkv1⟩
      have hkvc : kv ∈ cfg.group := splitAddModify_addmod_sub _ _ _ kv (Or.inr hkv)
      refine Or.inr (Or.inr (Or.inr (Or.inr (Or.inr (Or.inl ⟨kv, hkvc, ?_⟩)))))
      rw [hkv1, hxe]

/-- After a sync pass every configured person's DN is present. -/
theorem syncAll_person_present (cfg : LDAPEnforcerConfig) (st0 : List String)
    (hnd : st0.Nodup) (hsep : ousSeparated cfg = true) :
    ∀ kv ∈ cfg.person, PersonToDN cfg.enforcedPeopleOU kv.1 ∈ (syncAllMock cfg st0).2 := by
  intro kv hkv
  rw [ousSeparated, Bool.and_eq_true, Bool.and_eq_true] at hsep
  obtain ⟨⟨hps, hpg⟩, hsg⟩ := hsep
  have hpne := (ouSeparated_ne hps).1
  have hgne := (ouSeparated_ne hpg).2
  have hinP : isDNInOU (PersonToDN cfg.enforcedPeopleOU kv.1) cfg.enforcedPeopleOU = true :=
    isDNInOU_PersonToDN _ _ hpne
  have hgF : isDNInOU (PersonToDN cfg.enforcedPeopleOU kv.1) cfg.enforcedGroupOU = false :=
    isDNInOU_false_of_other hpg hinP
  have hsF : isDNInOU (PersonToDN cfg.enforcedPeopleOU kv.1) cfg.enforcedSvcAcctOU = false :=
    isDNInOU_false_of_other hps hinP
  simp only [syncAllMock]
  set stI := setExisting (setExisting (setExisting st0 cfg.enforcedPeopleOU)
    cfg.enforcedSvcAcctOU) cfg.enforcedGroupOU with hstI
  have hndI : stI.Nodup := by
    rw [hstI]
    exact setExisting_nodup _ _ (setExisting_nodup _ _ (setExisting_nodup _ _ hnd))
  refine runDeletes_preserve _ _ _
    (runDeletes_preserve _ _ _
      (runDeletes_preserve _ _ _
        (runGroupPhase_preserve_other _ _ _ hgne _ _ _ ?_ hgF)
        (remaining_ne _ _ _ _ _ hgF))
      ?_)
    (remaining_ne _ _ _ _ _ hsF)
  · rcases splitAddModify_complete (PersonToDN cfg.enforcedPeopleOU) cfg.person
      (getExistingEntries stI cfg.enforcedPeopleOU) kv hkv with hadd | hmod
    · exact runSyncAccounts_mono _ _ _ _ (runSyncAccounts_mono _ _ _ _
        (runSyncAccounts_mono _ _ _ _ (runSyncAccounts_mem _ _ _ _
          (List.mem_map.2 ⟨kv, hadd, rfl⟩))))
    · exact runSyncAccounts_mono _ _ _ _ (runSyncAccounts_mono _ _ _ _
        (runSyncAccounts_mem _ _ _ _ (List.mem_map.2 ⟨kv, hmod, rfl⟩)))
  · intro d hd he
    exact (splitAddModify_remaining _ _ _ (getExistingEntries_nodup _ _ hndI) d hd).2
      kv hkv he.symm

/-- After a sync pass every configured service account's DN is
present. -/
theorem syncAll_svc_present (cfg : LDAPEnforcerConfig) (st0 : List String)
    (hnd : st0.Nodup) (hsep : ousSeparated cfg = true) :
    ∀ kv ∈ cfg.svcacct, SvcAcctToDN cfg.enforcedSvcAcctOU kv.1 ∈ (syncAllMock cfg st0).2 := by
  intro kv hkv
  rw [ousSeparated, Bool.and_eq_true, Bool.and_eq_true] at hsep
  obtain ⟨⟨hps, hpg⟩, hsg⟩ := hsep
  have hsne := (ouSeparated_ne hsg).1
  have hgne := (ouSeparated_ne hpg).2
  have hinS : isDNInOU (SvcAcctToDN cfg.enforcedSvcAcctOU kv.1) cfg.enforcedSvcAcctOU = true :=
    isDNInOU_SvcAcctToDN _ _ hsne
  have hgF : isDNInOU (SvcAcctToDN cfg.enforcedSvcAcctOU kv.1) cfg.enforcedGroupOU = false :=
    isDNInOU_false_of_other hsg hinS
  have hpF : isDNInOU (SvcAcctToDN cfg.enforcedSvcAcctOU kv.1) cfg.enforcedPeopleOU = false :=
    isDNInOU_false_of_other (ouSeparated_symm hps) hinS
  simp only [syncAllMock]
  set stI := setExisting (setExisting (setExisting st0 cfg.enforcedPeopleOU)
    cfg.enforcedSvcAcctOU) cfg.enforcedGroupOU with hstI
  have hndI : stI.Nodup := by
    rw [hstI]
    exact setExisting_nodup _ _ (setExisting_nodup _ _ (setExisting_nodup _ _ hnd))
  refine runDeletes_preserve _ _ _
    (runDeletes_preserve _ _ _
      (runDeletes_preserve _ _ _
        (runGroupPhase_preserve_other _ _ _ hgne _ _ _ ?_ hgF)
        (remaining_ne _ _ _ _ _ hgF))
      (remaining_ne _ _ _ _ _ hpF))
    ?_
  · rcases splitAddModify_complete (SvcAcctToDN cfg.enforcedSvcAcctOU) cfg.svcacct
      (getExistingEntries stI cfg.enforcedSvcAcctOU) kv hkv with hadd | hmod
    · exact runSyncAccounts_mono _ _ _ _ (runSyncAccounts_mem _ _ _ _
        (List.mem_map.2 ⟨kv, hadd, rfl⟩))
    · exact runSyncAccounts_mem _ _ _ _ (List.mem_map.2 ⟨kv, hmod, rfl⟩)
  · intro d hd he
    exact (splitAddModify_remaining _ _ _ (getExistingEntries_nodup _ _ hndI) d hd).2
      kv hkv he.symm

/-- After a sync pass every configured group that is reached by the
group phase and resolves to at least one member has its DN present. -/
theorem syncAll_group_nonempty_present (cfg : LDAPEnforcerConfig) (st0 : List String)
    (hnd : st0.Nodup) (hsep : ousSeparated cfg = true) :
    ∀ kv ∈ cfg.group,
      kv.1 ∈ topologicalSortGroups (cfg.group.map (fun kv => kv.1)) (collectDeps cfg) →
      getGroupMembersRun cfg kv.1 ≠ [] →
      GroupToDN cfg.enforcedGroupOU kv.1 ∈ (syncAllMock cfg st0).2 := by
  intro kv hkv hord hne
  rw [ousSeparated, Bool.and_eq_true, Bool.and_eq_true] at hsep
  obtain ⟨⟨hps, hpg⟩, hsg⟩ := hsep
  have hgne := (ouSeparated_ne hpg).2
  have hinG : isDNInOU (GroupToDN cfg.enforcedGroupOU kv.1) cfg.enforcedGroupOU = true :=
    isDNInOU_GroupToDN _ _ hgne
  have hpF : isDNInOU (GroupToDN cfg.enforcedGroupOU kv.1) cfg.enforcedPeopleOU = false :=
    isDNInOU_false_of_other (ouSeparated_symm hpg) hinG
  have hsF : isDNInOU (GroupToDN cfg.enforcedGroupOU kv.1) cfg.enforcedSvcAcctOU = false :=
    isDNInOU_false_of_other (ouSeparated_symm hsg) hinG
  simp only [syncAllMock]
  set stI := setExisting (setExisting (setExisting st0 cfg.enforcedPeopleOU)
    cfg.enforcedSvcAcctOU) cfg.enforcedGroupOU with hstI
  have hndI : stI.Nodup := by
    rw [hstI]
    exact setExisting_nodup _ _ (setExisting_nodup _ _ (setExisting_nodup _ _ hnd))
  have hfound : ((splitAddModify (GroupToDN cfg.enforcedGroupOU) cfg.group
        (getExistingEntries stI cfg.enforcedGroupOU)).1.lookup kv.1).isSome = true ∨
      ((splitAddModify (GroupToDN cfg.enforcedGroupOU) cfg.group
        (getExistingEntries stI cfg.enforcedGroupOU)).2.1.lookup kv.1).isSome = true := by
    rcases splitAddModify_complete (GroupToDN cfg.enforcedGroupOU) cfg.group
      (getExistingEntries stI cfg.enforcedGroupOU) kv hkv with hadd | hmod
    · exact Or.inl (lookup_isSome_of_mem _ kv.1 kv.2 hadd)
    · exact Or.inr (lookup_isSome_of_mem _ kv.1 kv.2 hmod)
  refine runDeletes_preserve _ _ _
    (runDeletes_preserve _ _ _
      (runDeletes_preserve _ _ _
        (runGroupPhase_ensure _ _ _ _ hne hfound _ _ hord)
        ?_)
      (remaining_ne _ _ _ _ _ hpF))
    (remaining_ne _ _ _ _ _ hsF)
  intro d hd he
  exact (splitAddModify_remaining _ _ _ (getExistingEntries_nodup _ _ hndI) d hd).2
    kv hkv he.symm

/-- After a sync pass every configured group that is reached by the
group phase and resolves to zero members has no DN present. -/
theorem syncAll_group_empty_absent (cfg : LDAPEnforcerConfig) (st0 : List String)
    (hnd : st0.Nodup) :
    ∀ kv ∈ cfg.group,
      kv.1 ∈ topologicalSortGroups (cfg.group.map (fun kv => kv.1)) (collectDeps cfg) →
      getGroupMembersRun cfg kv.1 = [] →
      GroupToDN cfg.enforcedGroupOU kv.1 ∉ (syncAllMock cfg st0).2 := by
  intro kv hkv hord hempty hcon
  simp only [syncAllMock] at hcon
  set stI := setExisting (setExisting (setExisting st0 cfg.enforcedPeopleOU)
    cfg.enforcedSvcAcctOU) cfg.enforcedGroupOU with hstI
  have hndI : stI.Nodup := by
    rw [hstI]
    exact setExisting_nodup _ _ (setExisting_nodup _ _ (setExisting_nodup _ _ hnd))
  set spP := splitAddModify (PersonToDN cfg.enforcedPeopleOU) cfg.person
    (getExistingEntries stI cfg.enforcedPeopleOU) with hspP
  set spS := splitAddModify (SvcAcctToDN cfg.enforcedSvcAcctOU) cfg.svcacct
    (getExistingEntries stI cfg.enforcedSvcAcctOU) with hspS
  set spG := splitAddModify (GroupToDN cfg.enforcedGroupOU) cfg.group
    (getExistingEntries stI cfg.enforcedGroupOU) with hspG
  set ord := topologicalSortGroups (cfg.group.map (fun kv => kv.1)) (collectDeps cfg) with hord2
  set rPA := runSyncAccounts (PersonToDN cfg.enforcedPeopleOU)
    (spP.1.map (fun kv => kv.1)) stI with hrPA
  set rPM := runSyncAccounts (PersonToDN cfg.enforcedPeopleOU)
    (spP.2.1.map (fun kv => kv.1)) rPA.2 with hrPM
  set rSA := runSyncAccounts (SvcAcctToDN cfg.enforcedSvcAcctOU)
    (spS.1.map (fun kv => kv.1)) rPM.2 with hrSA
  set rSM := runSyncAccounts (SvcAcctToDN cfg.enforcedSvcAcctOU)
    (spS.2.1.map (fun kv => kv.1)) rSA.2 with hrSM
  set rG := runGroupPhase cfg spG.1 spG.2.1 ord rSM.2 with hrG
  have hndSM : rSM.2.Nodup := by
    rw [hrSM]
    refine runSyncAccounts_nodup _ _ _ ?_
    rw [hrSA]
    refine runSyncAccounts_nodup _ _ _ ?_
    rw [hrPM]
    refine runSyncAccounts_nodup _ _ _ ?_
    rw [hrPA]
    exact runSyncAccounts_nodup _ _ _ hndI
  have hfound : (spG.1.lookup kv.1).isSome = true ∨ (spG.2.1.lookup kv.1).isSome = true := by
    rcases splitAddModify_complete (GroupToDN cfg.enforcedGroupOU) cfg.group
      (getExistingEntries stI cfg.enforcedGroupOU) kv hkv with hadd | hmod
    · exact Or.inl (lookup_isSome_of_mem _ kv.1 kv.2 hadd)
    · exact Or.inr (lookup_isSome_of_mem _ kv.1 kv.2 hmod)
  have hxG : GroupToDN cfg.enforcedGroupOU kv.1 ∈ rG.2 :=
    runDeletes_state_subset _ _ _
      (runDeletes_state_subset _ _ _ (runDeletes_state_subset _ _ _ hcon))
  rw [hrG] at hxG
  exact runGroupPhase_empty_removed cfg spG.1 spG.2.1 kv.1 hempty hfound ord rSM.2
    hndSM hord hxG

/-- On a converged state (every configured DN present as appropriate,
nothing unconfigured observed in the managed OUs) a sync pass records
only modify operations. -/
theorem syncAll_all_modify_of_converged (cfg : LDAPEnforcerConfig) (st : List String)
    (hnd : st.Nodup) (hsep : ousSeparated cfg = true)
    (hP : ∀ kv ∈ cfg.person, PersonToDN cfg.enforcedPeopleOU kv.1 ∈ st)
    (hS : ∀ kv ∈ cfg.svcacct, SvcAcctToDN cfg.enforcedSvcAcctOU kv.1 ∈ st)
    (hGn : ∀ n ∈ topologicalSortGroups (cfg.group.map (fun kv => kv.1)) (collectDeps cfg),
      n ∈ cfg.group.map Prod.fst → getGroupMembersRun cfg n ≠ [] →
      GroupToDN cfg.enforcedGroupOU n ∈ st)
    (hGe : ∀ n ∈ topologicalSortGroups (cfg.group.map (fun kv => kv.1)) (collectDeps cfg),
      n ∈ cfg.group.map Prod.fst → getGroupMembersRun cfg n = [] →
      GroupToDN cfg.enforcedGroupOU n ∉ st)
    (hPo : ∀ x ∈ st, isDNInOU x cfg.enforcedPeopleOU = true →
      ∃ kv ∈ cfg.person, PersonToDN cfg.enforcedPeopleOU kv.1 = x)
    (hSo : ∀ x ∈ st, isDNInOU x cfg.enforcedSvcAcctOU = true →
      ∃ kv ∈ cfg.svcacct, SvcAcctToDN cfg.enforcedSvcAcctOU kv.1 = x)
    (hGo : ∀ x ∈ st, isDNInOU x cfg.enforcedGroupOU = true →
      ∃ kv ∈ cfg.group, GroupToDN cfg.enforcedGroupOU kv.1 = x) :
    ∀ op ∈ (syncAllMock cfg st).1, op.opType = "modify" := by
  rw [ousSeparated, Bool.and_eq_true, Bool.and_eq_true] at hsep
  obtain ⟨⟨hps, hpg⟩, hsg⟩ := hsep
  have hgne := (ouSeparated_ne hpg).2
  intro op hop
  simp only [syncAllMock] at hop
  set stI := setExisting (setExisting (setExisting st cfg.enforcedPeopleOU)
    cfg.enforcedSvcAcctOU) cfg.enforcedGroupOU with hstI
  have hndI : stI.Nodup := by
    rw [hstI]
    exact setExisting_nodup _ _ (setExisting_nodup _ _ (setExisting_nodup _ _ hnd))
  have hstIcases : ∀ x ∈ stI, x ∈ st ∨ x = cfg.enforcedPeopleOU ∨
      x = cfg.enforcedSvcAcctOU ∨ x = cfg.enforcedGroupOU := by
    intro x hx
    rw [hstI] at hx
    rcases (setExisting_mem_iff _ _ _).1 hx with hx | h
    · rcases (setExisting_mem_iff _ _ _).1 hx with hx | h
      · rcases (setExisting_mem_iff _ _ _).1 hx with hx | h
        · exact Or.inl hx
        · exact Or.inr (Or.inl h)
      · exact Or.inr (Or.inr (Or.inl h))
    · exact Or.inr (Or.inr (Or.inr h))
  set spP := splitAddModify (PersonToDN cfg.enforcedPeopleOU) cfg.person
    (getExistingEntries stI cfg.enforcedPeopleOU) with hspP
  set spS := splitAddModify (SvcAcctToDN cfg.enforcedSvcAcctOU) cfg.svcacct
    (getExistingEntries stI cfg.enforcedSvcAcctOU) with hspS
  set spG := splitAddModify (GroupToDN cfg.enforcedGroupOU) cfg.group
    (getExistingEntries stI cfg.enforcedGroupOU) with hspG
  set ord := topologicalSortGroups (cfg.group.map (fun kv => kv.1)) (collectDeps cfg) with hord
  have hpoolP : spP.2.2 = [] := by
    rw [List.eq_nil_iff_forall_not_mem]
    intro d hd
    rw [hspP] at hd
    obtain ⟨hdex, hnotc⟩ := splitAddModify_remaining _ _ _
      (getExistingEntries_nodup _ _ hndI) d hd
    obtain ⟨hdI, hdin⟩ := mem_of_getExistingEntries _ _ _ hdex
    rcases hstIcases d hdI with hdst | h | h | h
    · obtain ⟨kv, hkv, hdn⟩ := hPo d hdst hdin
      exact hnotc kv hkv hdn
    · rw [h, isDNInOU_self_false] at hdin
      exact Bool.false_ne_true hdin
    · rw [h, isDNInOU_sep_false (ouSeparated_symm hps)] at hdin
      exact Bool.false_ne_true hdin
    · rw [h, isDNInOU_sep_false (ouSeparated_symm hpg)] at hdin
      exact Bool.false_ne_true hdin
  have hpoolS : spS.2.2 = [] := by
    rw [List.eq_nil_iff_forall_not_mem]
    intro d hd
    rw [hspS] at hd
    obtain ⟨hdex, hnotc⟩ := splitAddModify_remaining _ _ _
      (getExistingEntries_nodup _ _ hndI) d hd
    obtain ⟨hdI, hdin⟩ := mem_of_getExistingEntries _ _ _ hdex
    rcases hstIcases d hdI with hdst | h | h | h
    · obtain ⟨kv, hkv, hdn⟩ := hSo d hdst hdin
      exact hnotc kv hkv hdn
    · rw [h, isDNInOU_sep_false hps] at hdin
      exact Bool.false_ne_true hdin
    · rw [h, isDNInOU_self_false] at hdin
      exact Bool.false_ne_true hdin
    · rw [h, isDNInOU_sep_false (ouSeparated_symm hsg)] at hdin
      exact Bool.false_ne_true hdin
  have hpoolG : spG.2.2 = [] := by
    rw [List.eq_nil_iff_forall_not_mem]
    intro d hd
    rw [hspG] at hd
    obtain ⟨hdex, hnotc⟩ := splitAddModify_remaining _ _ _
      (getExistingEntries_nodup _ _ hndI) d hd
    obtain ⟨hdI, hdin⟩ := mem_of_getExistingEntries _ _ _ hdex
    rcases hstIcases d hdI with hdst | h | h | h
    · obtain ⟨kv, hkv, hdn⟩ := hGo d hdst hdin
      exact hnotc kv hkv hdn
    · rw [h, isDNInOU_sep_false hpg] at hdin
      exact Bool.false_ne_true hdin
    · rw [h, isDNInOU_sep_false hsg] at hdin
      exact Bool.false_ne_true hdin
    · rw [h, isDNInOU_self_false] at hdin
      exact Bool.false_ne_true hdin
  have haP1 : ∀ uid ∈ spP.1.map (fun kv => kv.1),
      PersonToDN cfg.enforcedPeopleOU uid ∈ stI := by
    intro uid hu
    rw [hspP] at hu
    rcases List.mem_map.1 hu with ⟨kv, hkv, hkv1⟩
    have hkvc : kv ∈ cfg.person := splitAddModify_addmod_sub _ _ _ kv (Or.inl hkv)
    rw [← hkv1, hstI]
    exact setExisting_mono _ _ _ (setExisting_mono _ _ _
      (setExisting_mono _ _ _ (hP kv hkvc)))
  have haP2 : ∀ uid ∈ spP.2.1.map (fun kv => kv.1),
      PersonToDN cfg.enforcedPeopleOU uid ∈ stI := by
    intro uid hu
    rw [hspP] at hu
    rcases List.mem_map.1 hu with ⟨kv, hkv, hkv1⟩
    have hkvc : kv ∈ cfg.person := splitAddModify_addmod_sub _ _ _ kv (Or.inr hkv)
    rw [← hkv1, hstI]
    exact setExisting_mono _ _ _ (setExisting_mono _ _ _
      (setExisting_mono _ _ _ (hP kv hkvc)))
  have haS1 : ∀ uid ∈ spS.1.map (fun kv => kv.1),
      SvcAcctToDN cfg.enforcedSvcAcctOU uid ∈ stI := by
    intro uid hu
    rw [hspS] at hu
    rcases List.mem_map.1 hu with ⟨kv, hkv, hkv1⟩
    have hkvc : kv ∈ cfg.svcacct := splitAddModify_addmod_sub _ _ _ kv (Or.inl hkv)
    rw [← hkv1, hstI]
    exact setExisting_mono _ _ _ (setExisting_mono _ _ _
      (setExisting_mono _ _ _ (hS kv hkvc)))
  have haS2 : ∀ uid ∈ spS.2.1.map (fun kv => kv.1),
      SvcAcctToDN cfg.enforcedSvcAcctOU uid ∈ stI := by
    intro uid hu
    rw [hspS] at hu
    rcases List.mem_map.1 hu with ⟨kv, hkv, hkv1⟩
    have hkvc : kv ∈ cfg.svcacct := splitAddModify_addmod_sub _ _ _ kv (Or.inr hkv)
    rw [← hkv1, hstI]
    exact setExisting_mono _ _ _ (setExisting_mono _ _ _
      (setExisting_mono _ _ _ (hS kv hkvc)))
  have h1 := runSyncAccounts_all_present (PersonToDN cfg.enforcedPeopleOU)
    (spP.1.map (fun kv => kv.1)) stI haP1
  rw [h1.1] at hop
  have h2 := runSyncAccounts_all_present (PersonToDN cfg.enforcedPeopleOU)
    (spP.2.1.map (fun kv => kv.1)) stI haP2
  rw [h2.1] at hop
  have h3 := runSyncAccounts_all_present (SvcAcctToDN cfg.enforcedSvcAcctOU)
    (spS.1.map (fun kv => kv.1)) stI haS1
  rw [h3.1] at hop
  have h4 := runSyncAccounts_all_present (SvcAcctToDN cfg.enforcedSvcAcctOU)
    (spS.2.1.map (fun kv => kv.1)) stI haS2
  rw [h4.1] at hop
  have hA : ∀ kv ∈ spG.1, kv.1 ∈ cfg.group.map Prod.fst := by
    intro kv hkv
    rw [hspG] at hkv
    exact List.mem_map.2 ⟨kv, splitAddModify_addmod_sub _ _ _ kv (Or.inl hkv), rfl⟩
  have hM : ∀ kv ∈ spG.2.1, kv.1 ∈ cfg.group.map Prod.fst := by
    intro kv hkv
    rw [hspG] at hkv
    exact List.mem_map.2 ⟨kv, splitAddModify_addmod_sub _ _ _ kv (Or.inr hkv), rfl⟩
  have hEmpty : ∀ n ∈ ord, n ∈ cfg.group.map Prod.fst → getGroupMembersRun cfg n = [] →
      GroupToDN cfg.enforcedGroupOU n ∉ stI := by
    intro n hno hnk hne hcon
    have hinG : isDNInOU (GroupToDN cfg.enforcedGroupOU n) cfg.enforcedGroupOU = true :=
      isDNInOU_GroupToDN _ _ hgne
    rcases hstIcases _ hcon with hmem | h | h | h
    · exact hGe n hno hnk hne hmem
    · rw [h, isDNInOU_sep_false hpg] at hinG
      exact Bool.false_ne_true hinG
    · rw [h, isDNInOU_sep_false hsg] at hinG
      exact Bool.false_ne_true hinG
    · rw [h, isDNInOU_self_false] at hinG
      exact Bool.false_ne_true hinG
  have hNonempty : ∀ n ∈ ord, n ∈ cfg.group.map Prod.fst → getGroupMembersRun cfg n ≠ [] →
      GroupToDN cfg.enforcedGroupOU n ∈ stI := by
    intro n hno hnk hne
    rw [hstI]
    exact setExisting_mono _ _ _ (setExisting_mono _ _ _
      (setExisting_mono _ _ _ (hGn n hno hnk hne)))
  have h5 := runGroupPhase_no_change cfg spG.1 spG.2.1 hA hM ord stI hEmpty hNonempty
  rw [h5.1] at hop
  rw [hpoolP, hpoolS, hpoolG] at hop
  have hrdnil : ∀ s : List String, runDeletes [] s = ([], s) := fun s => rfl
  simp only [hrdnil, List.append_nil] at hop
  rcases List.mem_append.1 hop with h1234 | h5op
  · rcases List.mem_append.1 h1234 with h123 | h4op
    · rcases List.mem_append.1 h123 with h12 | h3op
      · rcases List.mem_append.1 h12 with h1op | h2op
        · exact h1.2 op h1op
        · exact h2.2 op h2op
      · exact h3.2 op h3op
    · exact h4.2 op h4op
  · exact h5.2 op h5op

/-- Claim C3 as amended: reconciling twice with no external drift need
not produce zero operations on the second pass; what holds is that for
every configuration with pairwise non-nested managed OUs and every
duplicate-free observed state, the second pass records no create and
no delete — every operation it records is a modify. -/
theorem syncAll_second_pass_only_modifies (cfg : LDAPEnforcerConfig) (st0 : List String)
    (hnd : st0.Nodup) (hsep : ousSeparated cfg = true) :
    ∀ op ∈ (syncAllMock cfg (syncAllMock cfg st0).2).1, op.opType = "modify" := by
  have hsep' := hsep
  rw [ousSeparated, Bool.and_eq_true, Bool.and_eq_true] at hsep'
  obtain ⟨⟨hps, hpg⟩, hsg⟩ := hsep'
  have hpne := (ouSeparated_ne hps).1
  have hsne := (ouSeparated_ne hsg).1
  have hgne := (ouSeparated_ne hpg).2
  refine syncAll_all_modify_of_converged cfg _ (syncAll_state_nodup cfg st0 hnd) hsep
    (syncAll_person_present cfg st0 hnd hsep) (syncAll_svc_present cfg st0 hnd hsep)
    ?_ ?_ ?_ ?_ ?_
  · intro n hno hnk hne
    rcases List.mem_map.1 hnk with ⟨kv, hkv, hkv1⟩
    rw [← hkv1] at hno hne ⊢
    exact syncAll_group_nonempty_present cfg st0 hnd hsep kv hkv hno hne
  · intro n hno hnk hne
    rcases List.mem_map.1 hnk with ⟨kv, hkv, hkv1⟩
    rw [← hkv1] at hno hne ⊢
    exact syncAll_group_empty_absent cfg st0 hnd kv hkv hno hne
  · intro x hx hin
    rcases syncAll_state_cases cfg st0 hnd x hx with h | h | h | h | h | h | h
    · rw [h, isDNInOU_self_false] at hin
      exact absurd hin Bool.false_ne_true
    · rw [h, isDNInOU_sep_false (ouSeparated_symm hps)] at hin
      exact absurd hin Bool.false_ne_true
    · rw [h, isDNInOU_sep_false (ouSeparated_symm hpg)] at hin
      exact absurd hin Bool.false_ne_true
    · exact h
    · obtain ⟨kv, hkv, he⟩ := h
      exfalso
      refine not_isDNInOU_both hps x ⟨hin, ?_⟩
      rw [← he]
      exact isDNInOU_SvcAcctToDN _ _ hsne
    · obtain ⟨kv, hkv, he⟩ := h
      exfalso
      refine not_isDNInOU_both hpg x ⟨hin, ?_⟩
      rw [← he]
      exact isDNInOU_GroupToDN _ _ hgne
    · rw [h.2.1] at hin
      exact absurd hin Bool.false_ne_true
  · intro x hx hin
    rcases syncAll_state_cases cfg st0 hnd x hx with h | h | h | h | h | h | h
    · rw [h, isDNInOU_sep_false hps] at hin
      exact absurd hin Bool.false_ne_true
    · rw [h, isDNInOU_self_false] at hin
      exact absurd hin Bool.false_ne_true
    · rw [h, isDNInOU_sep_false (ouSeparated_symm hsg)] at hin
      exact absurd hin Bool.false_ne_true
    · obtain ⟨kv, hkv, he⟩ := h
      exfalso
      refine not_isDNInOU_both (ouSeparated_symm hps) x ⟨hin, ?_⟩
      rw [← he]
      exact isDNInOU_PersonToDN _ _ hpne
    · exact h
    · obtain ⟨kv, hkv, he⟩ := h
      exfalso
      refine not_isDNInOU_both hsg x ⟨hin, ?_⟩
      rw [← he]
      exact isDNInOU_GroupToDN _ _ hgne
    · rw [h.2.2.1] at hin
      exact absurd hin Bool.false_ne_true
  · intro x hx hin
    rcases syncAll_state_cases cfg st0 hnd x hx with h | h | h | h | h | h | h
    · rw [h, isDNInOU_sep_false hpg] at hin
      exact absurd hin Bool.false_ne_true
    · rw [h, isDNInOU_sep_false hsg] at hin
      exact absurd hin Bool.false_ne_true
    · rw [h, isDNInOU_self_false] at hin
      exact absurd hin Bool.false_ne_true
    · obtain ⟨kv, hkv, he⟩ := h
      exfalso
      refine not_isDNInOU_both (ouSeparated_symm hpg) x ⟨hin, ?_⟩
      rw [← he]
      exact isDNInOU_PersonToDN _ _ hpne
    · obtain ⟨kv, hkv, he⟩ := h
      exfalso
      refine not_isDNInOU_both (ouSeparated_symm hsg) x ⟨hin, ?_⟩
      rw [← he]
      exact isDNInOU_SvcAcctToDN _ _ hsne
    · exact h
    · rw [h.2.2.2] at hin
      exact absurd hin Bool.false_ne_true

/-- Counterexample for claim C3: for the spec's own section-8 scenario
(one person, one group) the second sync pass immediately after a first
pass records a nonempty operation list, refuting the zero-operations
reading of idempotence. -/
theorem syncAll_second_pass_not_empty :
    (syncAllMock scenarioCfg (syncAllMock scenarioCfg []).2).1 ≠ [] := by decide

/-- Witness: the amended claim C3 applied at the section-8 scenario
configuration and the empty directory. -/
theorem syncAll_second_pass_witness :
    List.Nodup ([] : List String) ∧ ousSeparated scenarioCfg = true ∧
      ∀ op ∈ (syncAllMock scenarioCfg (syncAllMock scenarioCfg []).2).1,
        op.opType = "modify" :=
  ⟨by decide, by decide,
    syncAll_second_pass_only_modifies scenarioCfg [] (by decide) (by decide)⟩

end LdapEnforcer
